import Mathlib

/-!
Verification of the testlib device-emulation engine.

This file shallowly embeds the two emulators of the repository,
`testlib/emulators/charger_emulator.py` (`ChargerEmulator`) and
`testlib/emulators/inverter_emulator.py` (`InverterEmulator`), and proves or
refutes the frozen claims about them.

Modelling conventions:
* Python floats are modelled as exact rationals (`ℚ`) for the charger, whose
  arithmetic is plain +/*/÷, and as reals (`ℝ`) for the inverter, whose solar
  model uses `math.sin` and `math.pi`.
* Wall-clock time (`time.time()`, `datetime.now`) is modelled by an explicit
  `now` field advanced by `tick_interval_ms / 1000` seconds per tick (the
  emulator loop runs `_tick(); sleep(tick_interval_ms/1000)`).
* `uuid.uuid4()` transaction ids are modelled by a fresh-counter `nextId`;
  the Python dict `active_transactions` becomes an association list in which
  a new entry shadows (nonexistent, by freshness) older entries with the
  same key, matching dict-lookup semantics.
* `threading.Timer(_, f, args=[tid])` calls are modelled as pending events:
  starting a transaction records a pending preparation event, stopping
  records a pending finishing event; an event system (`ChargerEvent`)
  fires them at arbitrary points, which soundly over-approximates every
  real-time interleaving of the 3 s / 2 s timers with API calls and ticks.
* Telemetry emission (`on_data`, `_send_*`) only reads state; the payload
  fields the claims mention (solar/grid/reactive power, `current_power`,
  energy counters) are modelled as outputs of the tick functions.
* Stochastic wall-clock-derived quantities of the inverter
  (`time.time() % 0.6` cloud noise, fault-duration and fault-offset draws)
  are modelled as explicit per-tick inputs (`InvInput`), with their ranges
  stated as hypotheses where a claim depends on them.
-/

namespace Testlib

/-! ## Charger emulator: data model (charger_emulator.py, lines 10-68) -/

inductive ChargerStatus
  | Available
  | Preparing
  | Charging
  | SuspendedEVSE
  | SuspendedEV
  | Finishing
  | Reserved
  | Unavailable
  | Faulted
deriving DecidableEq

inductive TransactionStatus
  | Active
  | Stopped
  | Completed
deriving DecidableEq

/-- One entry of `self.active_transactions` (lines 164-174). -/
structure Transaction where
  connector_id : ℕ
  id_tag : String
  start_time : ℚ
  meter_start : ℚ
  meter_stop : Option ℚ
  stop_time : Option ℚ
  status : TransactionStatus
  energy_delivered : ℚ
  current_power : ℚ
deriving DecidableEq

/-- The mutable state of a `ChargerEmulator` instance.  `connStatus` models
the `status` field of the per-connector dicts; connector ids `1..n_connectors`
are the configured ones.  `connEnergy` models `self.energy_delivered`
(a dict defaulting to 0 — `setdefault` at line 176-177 is a no-op here).
`pendingPrep`/`pendingFinish` hold transaction ids whose 3 s preparation /
2 s finishing `threading.Timer` has been scheduled but has not fired yet. -/
structure ChargerState where
  n_connectors : ℕ
  max_power : ℚ
  tick_interval_ms : ℚ
  connStatus : ℕ → ChargerStatus
  txns : List (ℕ × Transaction)
  nextId : ℕ
  connEnergy : ℕ → ℚ
  now : ℚ
  pendingPrep : List ℕ
  pendingFinish : List ℕ

/-- Association-list lookup, first match wins (Python dict access). -/
def alookup (t : ℕ) : List (ℕ × Transaction) → Option Transaction
  | [] => none
  | p :: l => if p.1 = t then some p.2 else alookup t l

/-- Update every entry with key `t` (Python dict entry mutation). -/
def updAt (t : ℕ) (f : Transaction → Transaction) (l : List (ℕ × Transaction)) :
    List (ℕ × Transaction) :=
  l.map fun p => if p.1 = t then (p.1, f p.2) else p

/-- `ChargerEmulator.__init__` (lines 32-68): every connector starts
`Available`, no transactions, zero energy. -/
def mkCharger (n : ℕ) (mp tms t0 : ℚ) : ChargerState where
  n_connectors := n
  max_power := mp
  tick_interval_ms := tms
  connStatus := fun _ => ChargerStatus.Available
  txns := []
  nextId := 0
  connEnergy := fun _ => 0
  now := t0
  pendingPrep := []
  pendingFinish := []

/-! ## Charger emulator: operations -/

/-- `ChargerEmulator.start_transaction` (lines 149-197).  Raising
`ValueError` is modelled as `Except.error`; the Python method validates
before mutating anything, so the error branches carry no state change. -/
def start_transaction (s : ChargerState) (connector_id : ℕ) (id_tag : String)
    (meter_start : ℚ) : Except String (ChargerState × ℕ) :=
  if ¬ (1 ≤ connector_id ∧ connector_id ≤ s.n_connectors) then
    Except.error "Invalid connector ID"
  else if s.connStatus connector_id ≠ ChargerStatus.Available then
    Except.error "Connector not available"
  else
    let tid := s.nextId
    let txn : Transaction :=
      { connector_id := connector_id
        id_tag := id_tag
        start_time := s.now
        meter_start := meter_start
        meter_stop := none
        stop_time := none
        status := TransactionStatus.Active
        energy_delivered := 0
        current_power := 0 }
    Except.ok
      ({ s with
          connStatus := fun c => if c = connector_id then ChargerStatus.Preparing
            else s.connStatus c
          txns := (tid, txn) :: s.txns
          nextId := s.nextId + 1
          pendingPrep := s.pendingPrep ++ [tid] }, tid)

/-- `ChargerEmulator._start_charging` (lines 199-214): fires after the
preparation delay; guards only on the id existing, not on its status. -/
def start_charging (s : ChargerState) (transaction_id : ℕ) : ChargerState :=
  match alookup transaction_id s.txns with
  | none => s
  | some txn =>
      { s with
          connStatus := fun c => if c = txn.connector_id then ChargerStatus.Charging
            else s.connStatus c
          txns := updAt transaction_id
            (fun x => { x with current_power := s.max_power * (1/10) }) s.txns }

/-- `ChargerEmulator.stop_transaction` (lines 216-251). -/
def stop_transaction (s : ChargerState) (transaction_id : ℕ) :
    Bool × ChargerState :=
  match alookup transaction_id s.txns with
  | none => (false, s)
  | some txn =>
      (true,
        { s with
            txns := updAt transaction_id
              (fun x =>
                { x with
                    status := TransactionStatus.Stopped
                    meter_stop := some (x.meter_start + x.energy_delivered)
                    stop_time := some s.now }) s.txns
            connStatus := fun c => if c = txn.connector_id then ChargerStatus.Finishing
              else s.connStatus c
            pendingFinish := s.pendingFinish ++ [transaction_id] })

/-- `ChargerEmulator._finish_transaction` (lines 253-268): fires after the
finishing delay; guards only on the id existing. -/
def finish_transaction (s : ChargerState) (transaction_id : ℕ) : ChargerState :=
  match alookup transaction_id s.txns with
  | none => s
  | some txn =>
      { s with
          connStatus := fun c => if c = txn.connector_id then ChargerStatus.Available
            else s.connStatus c
          txns := updAt transaction_id
            (fun x => { x with status := TransactionStatus.Completed }) s.txns }

/-- The charging-curve power factor (lines 285-291). -/
def powerFactor (elapsed_minutes : ℚ) : ℚ :=
  if elapsed_minutes < 5 then 1/10 + elapsed_minutes / 5 * (9/10)
  else if elapsed_minutes < 30 then 1
  else max (3/10) (1 - (elapsed_minutes - 30) / 60 * (7/10))

/-- Per-transaction part of `_update_transactions` (lines 270-299): active
transactions on a charging connector get their power recomputed from the
wall-clock elapsed minutes and their energy incremented by
`current_power/1000 * tick_interval_ms/1000/3600`. -/
def updateTxn (s : ChargerState) (txn : Transaction) : Transaction :=
  if txn.status = TransactionStatus.Active ∧
      s.connStatus txn.connector_id = ChargerStatus.Charging then
    let p := s.max_power * powerFactor ((s.now - txn.start_time) / 60)
    { txn with
        current_power := p
        energy_delivered := txn.energy_delivered +
          p / 1000 * (s.tick_interval_ms / 1000 / 3600) }
  else txn

/-- The energy increment a transaction contributes in one tick (line 297). -/
def txnIncrement (s : ChargerState) (txn : Transaction) : ℚ :=
  if txn.status = TransactionStatus.Active ∧
      s.connStatus txn.connector_id = ChargerStatus.Charging then
    s.max_power * powerFactor ((s.now - txn.start_time) / 60) / 1000 *
      (s.tick_interval_ms / 1000 / 3600)
  else 0

/-- `ChargerEmulator._update_transactions` (lines 270-300): also adds each
transaction's increment to its connector's cumulative counter (line 300). -/
def update_transactions (s : ChargerState) : ChargerState :=
  { s with
      txns := s.txns.map fun pr => (pr.1, updateTxn s pr.2)
      connEnergy := fun c => s.connEnergy c +
        (s.txns.map fun pr =>
          if pr.2.connector_id = c then txnIncrement s pr.2 else 0).sum }

/-- One pass of the emulator loop (lines 90-107): `_tick()` runs the
transaction update at the current wall time, then the loop sleeps for
`tick_interval_ms` milliseconds before the next tick. -/
def tick (s : ChargerState) : ChargerState :=
  let s1 := update_transactions s
  { s1 with now := s1.now + s.tick_interval_ms / 1000 }

/-- `n` consecutive ticks. -/
def runTicks : ℕ → ChargerState → ChargerState
  | 0, s => s
  | n + 1, s => tick (runTicks n s)

/-! ## Charger emulator: event system

External API calls (`start_transaction`, `stop_transaction`), the two
delayed `threading.Timer` callbacks, and loop ticks can interleave in any
order; `ChargerEvent` traces range over all such interleavings. -/

inductive ChargerEvent
  | startTxn (c : ℕ) (tag : String) (m : ℚ)
  | stopTxn (t : ℕ)
  | firePrep (t : ℕ)
  | fireFinish (t : ℕ)
  | tickEv

def applyEvent (s : ChargerState) : ChargerEvent → ChargerState
  | ChargerEvent.startTxn c tag m =>
      match start_transaction s c tag m with
      | Except.ok (s', _) => s'
      | Except.error _ => s
  | ChargerEvent.stopTxn t => (stop_transaction s t).2
  | ChargerEvent.firePrep t =>
      if t ∈ s.pendingPrep then
        { start_charging s t with pendingPrep := s.pendingPrep.erase t }
      else s
  | ChargerEvent.fireFinish t =>
      if t ∈ s.pendingFinish then
        { finish_transaction s t with pendingFinish := s.pendingFinish.erase t }
      else s
  | ChargerEvent.tickEv => tick s

def runEvents (s : ChargerState) (es : List ChargerEvent) : ChargerState :=
  es.foldl applyEvent s

/-! ## Inverter emulator: calendar arithmetic

`datetime` field accesses on a UTC timestamp in whole seconds.  `dayOf` and
`monthOf` use the standard civil-from-days conversion of the proleptic
Gregorian calendar, which is what `datetime.fromtimestamp(_, tz=utc)`
computes for nonnegative timestamps. -/

def hourOf (t : ℕ) : ℕ := t / 3600 % 24

def minuteOf (t : ℕ) : ℕ := t % 3600 / 60

/-- Gregorian (year, month, day) from days since 1970-01-01. -/
def civilFromDays (days : ℕ) : ℕ × ℕ × ℕ :=
  let z := days + 719468
  let era := z / 146097
  let doe := z % 146097
  let yoe := (doe - doe / 1460 + doe / 36524 - doe / 146096) / 365
  let doy := doe - (365 * yoe + yoe / 4 - yoe / 100)
  let mp := (5 * doy + 2) / 153
  let d := doy - (153 * mp + 2) / 5 + 1
  let m := if mp < 10 then mp + 3 else mp - 9
  (if m ≤ 2 then yoe + era * 400 + 1 else yoe + era * 400, m, d)

def monthOf (t : ℕ) : ℕ := (civilFromDays (t / 86400)).2.1

def dayOf (t : ℕ) : ℕ := (civilFromDays (t / 86400)).2.2

/-! ## Inverter emulator: data model (inverter_emulator.py, lines 24-60) -/

/-- The wall-clock-derived stochastic quantities one inverter tick consumes
(`time.time()` reads): `cloudNoise` is `time.time() % 0.6` (line 263),
`duration_draw` is `time.time() % (fault_duration_max - fault_duration_min)`
(lines 283-287), `wall_ms` is `floor(time.time() * 1000)` (line 68). -/
structure InvInput where
  cloudNoise : ℝ
  duration_draw : ℚ
  wall_ms : ℕ

/-- Mutable state of an `InverterEmulator` instance.  Virtual time is a UTC
timestamp in whole seconds.  `grid_power_data` is the 288-slot 5-minute
sample sequence (line 59). -/
structure InverterState where
  virtual_time : ℕ
  fault_enabled : Bool
  fault_active : Bool
  mean_fault_interval : ℕ
  fault_duration_min : ℚ
  fault_duration_max : ℚ
  next_fault_time : Option ℚ
  fault_end_time : Option ℚ
  daily : ℝ
  monthly : ℝ
  yearly : ℝ
  grid_power_data : List ℝ
  current_tick_interval_ms : ℚ

/-- `InverterEmulator._schedule_next_fault` (lines 62-71). -/
def schedule_next_fault (s : InverterState) (inp : InvInput) : Option ℚ :=
  if ¬ s.fault_enabled then none
  else
    let interval_minutes := s.mean_fault_interval * 24 * 60
    let offset_minutes := inp.wall_ms % interval_minutes
    some ((s.virtual_time : ℚ) + offset_minutes * 60)

/-- `InverterEmulator.__init__` (lines 24-60) with `fault_enabled = False`
(the default). -/
def mkInverter (start_time : ℕ) : InverterState where
  virtual_time := start_time
  fault_enabled := false
  fault_active := false
  mean_fault_interval := 7
  fault_duration_min := 10
  fault_duration_max := 60
  next_fault_time := none
  fault_end_time := none
  daily := 0
  monthly := 0
  yearly := 0
  grid_power_data := List.replicate 288 0
  current_tick_interval_ms := 1000

/-- `InverterEmulator.update_tick_interval` (lines 90-97): non-positive
values are rejected as a no-op. -/
def update_tick_interval (s : InverterState) (new_interval_ms : ℚ) :
    InverterState :=
  if new_interval_ms ≤ 0 then s
  else { s with current_tick_interval_ms := new_interval_ms }

/-- `InverterEmulator._calculate_solar_power` (lines 234-269), with the
daylight test given by the source's deterministic fallback window
`6 <= hour <= 18` (lines 253-257) and the cloud factor
`0.7 + time.time() % 0.6` taking its wall-clock noise from the input. -/
noncomputable def calculate_solar_power (s : InverterState) (inp : InvInput) :
    Bool × ℝ :=
  let is_daylight : Bool :=
    decide (6 ≤ hourOf s.virtual_time ∧ hourOf s.virtual_time ≤ 18)
  if ¬ is_daylight ∨ s.fault_active then (is_daylight, 0)
  else
    let cloud_factor : ℝ := 7/10 + inp.cloudNoise
    let hour_angle : ℝ := Real.pi * (((hourOf s.virtual_time : ℝ) - 6) / 12)
    let peak_output : ℝ := 5000
    (is_daylight, max 0 (peak_output * Real.sin hour_angle * cloud_factor))

/-- `InverterEmulator._update_fault_status` (lines 271-304). -/
def update_fault_status (s : InverterState) (inp : InvInput) : InverterState :=
  if ¬ s.fault_enabled then s
  else if !s.fault_active &&
      (match s.next_fault_time with
        | some nf => decide (nf ≤ (s.virtual_time : ℚ))
        | none => false) then
    let duration_minutes := s.fault_duration_min + inp.duration_draw
    { s with
        fault_end_time := some ((s.virtual_time : ℚ) + duration_minutes * 60)
        fault_active := true }
  else if s.fault_active &&
      (match s.fault_end_time with
        | some fe => decide (fe ≤ (s.virtual_time : ℚ))
        | none => false) then
    { s with
        fault_active := false
        next_fault_time := schedule_next_fault s inp }
  else s

/-- The per-tick energy increment, `(solar_power * 5) / 60 / 1000` (line 181). -/
noncomputable def energy_increment (solar_power : ℝ) : ℝ :=
  solar_power * 5 / 60 / 1000

/-- The fields of the per-tick telemetry payload that the claims mention
(lines 193-223). -/
structure InvOutput where
  is_daylight : Bool
  solarPower : ℝ
  gridPower : ℝ
  reactivePower : ℝ

/-- `_tick` lines 119-133: reset the daily counter and the sample sequence
when the (already advanced) virtual time has hour 0 and minute 0; likewise
monthly on the 1st and yearly on Jan 1. -/
def reset_counters (s : InverterState) : InverterState :=
  let s2 := if hourOf s.virtual_time = 0 ∧ minuteOf s.virtual_time = 0 then
      { s with daily := 0, grid_power_data := List.replicate 288 0 }
    else s
  let s3 := if dayOf s.virtual_time = 1 ∧ hourOf s.virtual_time = 0 ∧
      minuteOf s.virtual_time = 0 then
      { s2 with monthly := 0 }
    else s2
  if monthOf s.virtual_time = 1 ∧ dayOf s.virtual_time = 1 ∧
      hourOf s.virtual_time = 0 ∧ minuteOf s.virtual_time = 0 then
    { s3 with yearly := 0 }
  else s3

/-- `_tick` lines 157-160: write the current 5-minute slot (the index is
always `< 288`, but the source guards for it). -/
noncomputable def write_grid_slot (s : InverterState) (grid_power : ℝ) :
    InverterState :=
  let current_index := hourOf s.virtual_time * 12 + minuteOf s.virtual_time / 5
  if current_index < 288 then
    { s with grid_power_data :=
        s.grid_power_data.set current_index (grid_power / 1000) }
  else s

/-- `_tick` lines 179-184: accumulate the calendar counters unless faulted. -/
noncomputable def accumulate_energy (s : InverterState) (solar_power : ℝ) :
    InverterState :=
  if ¬ s.fault_active then
    { s with
        daily := s.daily + energy_increment solar_power
        monthly := s.monthly + energy_increment solar_power
        yearly := s.yearly + energy_increment solar_power }
  else s

/-- `_tick` lines 113-117: advance virtual time by five minutes. -/
def advance (s : InverterState) : InverterState :=
  { s with virtual_time := s.virtual_time + 300 }

namespace Inverter

/-- The `(is_daylight, solar_power)` pair a tick computes (line 136): solar
power is calculated after the advance and resets but *before* the fault
update, so it sees the previous tick's fault flag. -/
noncomputable def solar_result (s : InverterState) (inp : InvInput) :
    Bool × ℝ :=
  calculate_solar_power (reset_counters (advance s)) inp

/-- The state after the advance, counter resets and the fault update
(`self` as of line 141). -/
def state_after_fault (s : InverterState) (inp : InvInput) : InverterState :=
  update_fault_status (reset_counters (advance s)) inp

/-- Line 142: `grid_power = solar_power * 0.98 if not fault_active else 0`,
with the *post-update* fault flag. -/
noncomputable def grid_powerOf (s : InverterState) (inp : InvInput) : ℝ :=
  if ¬ (state_after_fault s inp).fault_active then (solar_result s inp).2 * 0.98
  else 0

/-- Line 143: `reactive_power = grid_power * 0.05 if not fault_active else 0`. -/
noncomputable def reactive_powerOf (s : InverterState) (inp : InvInput) : ℝ :=
  if ¬ (state_after_fault s inp).fault_active then grid_powerOf s inp * 0.05
  else 0

/-- `InverterEmulator._tick` (lines 111-232): advance virtual time by five
minutes, reset calendar counters, compute solar power (with the pre-update
fault flag), update the fault status, derive grid and reactive power (with
the post-update fault flag), write the current 5-minute slot of the sample
sequence, and accumulate the calendar energy counters unless faulted. -/
noncomputable def tick (s : InverterState) (inp : InvInput) :
    InverterState × InvOutput :=
  (accumulate_energy
      (write_grid_slot (state_after_fault s inp) (grid_powerOf s inp))
      (solar_result s inp).2,
    ⟨(solar_result s inp).1, (solar_result s inp).2, grid_powerOf s inp,
      reactive_powerOf s inp⟩)

/-- `n` ticks fed by the input stream `ins`. -/
noncomputable def run (s : InverterState) (ins : ℕ → InvInput) : ℕ → InverterState
  | 0 => s
  | n + 1 => (tick (run s ins n) (ins n)).1

end Inverter

/-! ## Helper lemmas: association-list operations -/

theorem alookup_updAt_self (t : ℕ) (f : Transaction → Transaction)
    (l : List (ℕ × Transaction)) :
    alookup t (updAt t f l) = (alookup t l).map f := by
  induction l with
  | nil => rfl
  | cons p l ih =>
      by_cases h : p.1 = t
      · simp [updAt, alookup, h]
      · simp [updAt, alookup, h] at ih ⊢
        exact ih

theorem alookup_updAt_ne (t u : ℕ) (h : u ≠ t) (f : Transaction → Transaction)
    (l : List (ℕ × Transaction)) :
    alookup u (updAt t f l) = alookup u l := by
  induction l with
  | nil => rfl
  | cons p l ih =>
      by_cases hp : p.1 = t
      · have h1 : p.1 ≠ u := by rw [hp]; exact fun hc => h hc.symm
        simp only [updAt, List.map_cons, if_pos hp, alookup, if_neg h1]
        exact ih
      · by_cases hu : p.1 = u
        · simp only [updAt, List.map_cons, if_neg hp, alookup, if_pos hu]
        · simp only [updAt, List.map_cons, if_neg hp, alookup, if_neg hu]
          exact ih

theorem alookup_mapSnd (t : ℕ) (f : Transaction → Transaction)
    (l : List (ℕ × Transaction)) :
    alookup t (l.map fun pr => (pr.1, f pr.2)) = (alookup t l).map f := by
  induction l with
  | nil => rfl
  | cons p l ih =>
      by_cases h : p.1 = t
      · simp [alookup, h]
      · simp [alookup, h] at ih ⊢
        exact ih

/-! ## Helper lemmas: the charging curve -/

/-- For nonnegative elapsed time the power factor stays in `[1/10, 1]`. -/
theorem powerFactor_bounds (e : ℚ) (he : 0 ≤ e) :
    1/10 ≤ powerFactor e ∧ powerFactor e ≤ 1 := by
  unfold powerFactor
  split_ifs with h1 h2
  · constructor
    · nlinarith
    · nlinarith
  · norm_num
  · constructor
    · refine le_trans (by norm_num) (le_max_left _ _)
    · refine max_le (by norm_num) (by nlinarith)

/-! ## Claim C2 -/

/-- C2: for an Active transaction on a Charging connector, the tick sets
`current_power` to `max_power` times the piecewise curve factor — ramp
`0.1 + (e/5)*0.9` below 5 minutes, `1` from 5 to 30 minutes, then
`max(0.3, 1 - ((e-30)/60)*0.7)` — and the factor stays in `[0.1, 1]`, so
the power stays in `[0.1*max_power, max_power]`. -/
theorem C2_charging_curve (s : ChargerState) (txn : Transaction)
    (hA : txn.status = TransactionStatus.Active)
    (hC : s.connStatus txn.connector_id = ChargerStatus.Charging)
    (he : txn.start_time ≤ s.now) (hmp : 0 ≤ s.max_power) :
    (updateTxn s txn).current_power =
      s.max_power * powerFactor ((s.now - txn.start_time) / 60) ∧
    ((s.now - txn.start_time) / 60 < 5 →
      powerFactor ((s.now - txn.start_time) / 60) =
        1/10 + (s.now - txn.start_time) / 60 / 5 * (9/10)) ∧
    (5 ≤ (s.now - txn.start_time) / 60 → (s.now - txn.start_time) / 60 < 30 →
      powerFactor ((s.now - txn.start_time) / 60) = 1) ∧
    (30 ≤ (s.now - txn.start_time) / 60 →
      powerFactor ((s.now - txn.start_time) / 60) =
        max (3/10) (1 - ((s.now - txn.start_time) / 60 - 30) / 60 * (7/10))) ∧
    1/10 ≤ powerFactor ((s.now - txn.start_time) / 60) ∧
    powerFactor ((s.now - txn.start_time) / 60) ≤ 1 ∧
    1/10 * s.max_power ≤ (updateTxn s txn).current_power ∧
    (updateTxn s txn).current_power ≤ s.max_power := by
  have hpf : (updateTxn s txn).current_power =
      s.max_power * powerFactor ((s.now - txn.start_time) / 60) := by
    unfold updateTxn
    rw [if_pos ⟨hA, hC⟩]
  have hb := powerFactor_bounds ((s.now - txn.start_time) / 60)
    (by have := sub_nonneg.mpr he; positivity)
  refine ⟨hpf, ?_, ?_, ?_, hb.1, hb.2, ?_, ?_⟩
  · intro h; unfold powerFactor; rw [if_pos h]
  · intro h5 h30; unfold powerFactor; rw [if_neg (not_lt.mpr h5), if_pos h30]
  · intro h; unfold powerFactor
    rw [if_neg (by linarith), if_neg (by linarith)]
  · rw [hpf]; nlinarith [hb.1]
  · rw [hpf]; nlinarith [hb.2]

def c2State : ChargerState :=
  { mkCharger 2 22000 5000 0 with
      now := 180
      connStatus := fun c => if c = 1 then ChargerStatus.Charging
        else ChargerStatus.Available }

def c2Txn : Transaction where
  connector_id := 1
  id_tag := "tag"
  start_time := 0
  meter_start := 0
  meter_stop := none
  stop_time := none
  status := TransactionStatus.Active
  energy_delivered := 0
  current_power := 0

/-- Witness for C2: three minutes into charging at `max_power = 22000` the
power is `22000 * (0.1 + 3/5*0.9) = 14080`, inside `[2200, 22000]`. -/
theorem C2_charging_curve_witness :
    (updateTxn c2State c2Txn).current_power = 14080 ∧
    1/10 * 22000 ≤ (updateTxn c2State c2Txn).current_power ∧
    (updateTxn c2State c2Txn).current_power ≤ 22000 := by
  have h := C2_charging_curve c2State c2Txn rfl rfl
    (by norm_num [c2State, c2Txn, mkCharger]) (by norm_num [c2State, mkCharger])
  have h0 : (c2State.now - c2Txn.start_time) / 60 = 3 := by
    norm_num [c2State, c2Txn, mkCharger]
  rw [h0] at h
  obtain ⟨h1, h2, -, -, -, -, h7, h8⟩ := h
  have h3 := h2 (by norm_num)
  refine ⟨?_, ?_, ?_⟩
  · rw [h1, h3]; norm_num [c2State, mkCharger]
  · simpa [c2State, mkCharger] using h7
  · simpa [c2State, mkCharger] using h8

/-! ## Claim C1 -/

/-- The energy delivered so far by transaction `t`. -/
def energyOf (s : ChargerState) (t : ℕ) : ℚ :=
  ((alookup t s.txns).map Transaction.energy_delivered).getD 0

def c1Txn : Transaction where
  connector_id := 1
  id_tag := "A"
  start_time := 0
  meter_start := 0
  meter_stop := none
  stop_time := none
  status := TransactionStatus.Active
  energy_delivered := 0
  current_power := 0

/-- A one-connector charger with tick interval `i` milliseconds whose single
transaction is actively charging. -/
def c1State (i : ℚ) : ChargerState :=
  { mkCharger 1 22000 i 0 with
      txns := [(0, c1Txn)]
      nextId := 1
      connStatus := fun c => if c = 1 then ChargerStatus.Charging
        else ChargerStatus.Available }

/-- After one tick, the energy of the `c1State` transaction is a strictly
increasing function of the tick interval. -/
theorem c1_energy_value (i : ℚ) :
    energyOf (tick (c1State i)) 0 = 11 * i / 18000000 := by
  norm_num [energyOf, tick, update_transactions, c1State, mkCharger, c1Txn,
    updateTxn, txnIncrement, powerFactor, alookup]
  ring

/-- Counterexample to C1 as stated: the charger's per-tick energy increment
is `current_power/1000 * tick_interval_ms/1000/3600`, so one tick of the
same charging transaction accumulates different energy under tick intervals
5000 ms and 10000 ms. -/
theorem C1_counterexample :
    energyOf (tick (c1State 5000)) 0 ≠ energyOf (tick (c1State 10000)) 0 := by
  rw [c1_energy_value, c1_energy_value]
  norm_num

/-- Setting the tick interval, the effect of a successful
`update_tick_interval` call. -/
def setItv (s : InverterState) (v : ℚ) : InverterState :=
  { s with current_tick_interval_ms := v }

theorem update_tick_interval_pos (s : InverterState) (v : ℚ) (hv : 0 < v) :
    update_tick_interval s v = setItv s v := by
  rw [update_tick_interval, if_neg (not_le.mpr hv)]
  rfl

theorem reset_counters_setItv (s : InverterState) (v : ℚ) :
    reset_counters (setItv s v) = setItv (reset_counters s) v := by
  cases s
  simp only [setItv, reset_counters]
  split_ifs <;> rfl

theorem calculate_solar_power_setItv (s : InverterState) (inp : InvInput)
    (v : ℚ) :
    calculate_solar_power (setItv s v) inp = calculate_solar_power s inp := by
  cases s
  rfl

theorem update_fault_status_setItv (s : InverterState) (inp : InvInput)
    (v : ℚ) :
    update_fault_status (setItv s v) inp =
      setItv (update_fault_status s inp) v := by
  cases s
  simp only [setItv, update_fault_status, schedule_next_fault]
  split_ifs <;> rfl

theorem write_grid_slot_setItv (s : InverterState) (g : ℝ) (v : ℚ) :
    write_grid_slot (setItv s v) g = setItv (write_grid_slot s g) v := by
  cases s
  simp only [setItv, write_grid_slot]
  split_ifs <;> rfl

theorem accumulate_energy_setItv (s : InverterState) (p : ℝ) (v : ℚ) :
    accumulate_energy (setItv s v) p = setItv (accumulate_energy s p) v := by
  cases s
  simp only [setItv, accumulate_energy]
  split_ifs <;> rfl

theorem reset_counters_virtual_time (s : InverterState) :
    (reset_counters s).virtual_time = s.virtual_time := by
  simp only [reset_counters]
  split_ifs <;> rfl

theorem update_fault_status_virtual_time (s : InverterState) (inp : InvInput) :
    (update_fault_status s inp).virtual_time = s.virtual_time := by
  simp only [update_fault_status]
  split_ifs <;> rfl

theorem write_grid_slot_virtual_time (s : InverterState) (g : ℝ) :
    (write_grid_slot s g).virtual_time = s.virtual_time := by
  simp only [write_grid_slot]
  split_ifs <;> rfl

theorem accumulate_energy_virtual_time (s : InverterState) (p : ℝ) :
    (accumulate_energy s p).virtual_time = s.virtual_time := by
  simp only [accumulate_energy]
  split_ifs <;> rfl

theorem state_after_fault_virtual_time (s : InverterState) (inp : InvInput) :
    (Inverter.state_after_fault s inp).virtual_time = s.virtual_time + 300 := by
  rw [Inverter.state_after_fault, update_fault_status_virtual_time,
    reset_counters_virtual_time]
  rfl

/-- Every inverter tick advances virtual time by exactly 300 seconds. -/
theorem invTick_virtual_time (s : InverterState) (inp : InvInput) :
    (Inverter.tick s inp).1.virtual_time = s.virtual_time + 300 := by
  show (accumulate_energy _ _).virtual_time = _
  rw [accumulate_energy_virtual_time, write_grid_slot_virtual_time,
    state_after_fault_virtual_time]

theorem advance_setItv (s : InverterState) (v : ℚ) :
    advance (setItv s v) = setItv (advance s) v := rfl

theorem state_after_fault_setItv (s : InverterState) (inp : InvInput) (v : ℚ) :
    Inverter.state_after_fault (setItv s v) inp =
      setItv (Inverter.state_after_fault s inp) v := by
  unfold Inverter.state_after_fault
  rw [advance_setItv, reset_counters_setItv, update_fault_status_setItv]

theorem solar_result_setItv (s : InverterState) (inp : InvInput) (v : ℚ) :
    Inverter.solar_result (setItv s v) inp = Inverter.solar_result s inp := by
  unfold Inverter.solar_result
  rw [advance_setItv, reset_counters_setItv, calculate_solar_power_setItv]

theorem setItv_fault_active (s : InverterState) (v : ℚ) :
    (setItv s v).fault_active = s.fault_active := rfl

theorem grid_powerOf_setItv (s : InverterState) (inp : InvInput) (v : ℚ) :
    Inverter.grid_powerOf (setItv s v) inp = Inverter.grid_powerOf s inp := by
  unfold Inverter.grid_powerOf
  rw [state_after_fault_setItv, solar_result_setItv, setItv_fault_active]

theorem reactive_powerOf_setItv (s : InverterState) (inp : InvInput) (v : ℚ) :
    Inverter.reactive_powerOf (setItv s v) inp =
      Inverter.reactive_powerOf s inp := by
  unfold Inverter.reactive_powerOf
  rw [state_after_fault_setItv, grid_powerOf_setItv, setItv_fault_active]

/-- The inverter tick never reads `current_tick_interval_ms`. -/
theorem invTick_setItv (s : InverterState) (inp : InvInput) (v : ℚ) :
    Inverter.tick (setItv s v) inp =
      (setItv (Inverter.tick s inp).1 v, (Inverter.tick s inp).2) := by
  unfold Inverter.tick
  rw [state_after_fault_setItv, solar_result_setItv, grid_powerOf_setItv,
    reactive_powerOf_setItv, write_grid_slot_setItv, accumulate_energy_setItv]

theorem invRun_setItv (s : InverterState) (ins : ℕ → InvInput) (v : ℚ)
    (n : ℕ) :
    Inverter.run (setItv s v) ins n = setItv (Inverter.run s ins n) v := by
  induction n with
  | zero => rfl
  | succ n ih => rw [Inverter.run, Inverter.run, ih, invTick_setItv]

/-- C1, amended: the tick interval is pacing-only for the *inverter* — its
tick advances virtual time by exactly 300 s and, fed the same stochastic
inputs, produces identical outputs and identical daily/monthly/yearly
energy counters over any number of ticks for any two interval settings.
For the *charger* the claim fails: the wall-clock tick interval enters the
per-tick energy increment directly, so the same transaction accumulates
different energy under different interval values. -/
theorem C1_tick_interval :
    (∀ (s : InverterState) (inp : InvInput) (v : ℚ), 0 < v →
      (Inverter.tick s inp).1.virtual_time = s.virtual_time + 300 ∧
      Inverter.tick (update_tick_interval s v) inp =
        (update_tick_interval (Inverter.tick s inp).1 v,
          (Inverter.tick s inp).2)) ∧
    (∀ (s : InverterState) (ins : ℕ → InvInput) (v : ℚ) (n : ℕ), 0 < v →
      (Inverter.run (update_tick_interval s v) ins n).daily =
        (Inverter.run s ins n).daily ∧
      (Inverter.run (update_tick_interval s v) ins n).monthly =
        (Inverter.run s ins n).monthly ∧
      (Inverter.run (update_tick_interval s v) ins n).yearly =
        (Inverter.run s ins n).yearly) ∧
    (∀ i j : ℚ, i ≠ j →
      energyOf (tick (c1State i)) 0 ≠ energyOf (tick (c1State j)) 0) := by
  refine ⟨fun s inp v hv => ⟨invTick_virtual_time s inp, ?_⟩,
    fun s ins v n hv => ?_, ?_⟩
  · rw [update_tick_interval_pos s v hv, update_tick_interval_pos _ v hv,
      invTick_setItv]
  · rw [update_tick_interval_pos s v hv, invRun_setItv]
    exact ⟨rfl, rfl, rfl⟩
  · intro i j hij
    rw [c1_energy_value, c1_energy_value]
    intro hc
    apply hij
    field_simp at hc
    linarith

/-- Witness for C1: the inverter invariance instantiated at a concrete
state, input stream, interval 7 and 3 ticks, together with the charger
divergence at intervals 5000 and 10000. -/
theorem C1_tick_interval_witness :
    (Inverter.run (update_tick_interval (mkInverter 0) 7)
        (fun _ => ⟨0, 0, 0⟩) 3).daily =
      (Inverter.run (mkInverter 0) (fun _ => ⟨0, 0, 0⟩) 3).daily ∧
    energyOf (tick (c1State 5000)) 0 ≠ energyOf (tick (c1State 10000)) 0 := by
  constructor
  · exact (C1_tick_interval.2.1 (mkInverter 0) (fun _ => ⟨0, 0, 0⟩) 7 3
      (by norm_num)).1
  · exact C1_tick_interval.2.2 5000 10000 (by norm_num)

/-! ## Claim C4 -/

/-- C4: `start_transaction` fails exactly when the connector id is not
configured or the connector is not Available; a failing call leaves the
state untouched; a successful call moves the named connector to Preparing
(and no other), creates a fresh Active transaction with zero energy and the
given meter start, leaves every other transaction alone and does not touch
the energy counters. -/
theorem C4_start_transaction (s : ChargerState) (c : ℕ) (tag : String)
    (m : ℚ) :
    ((∃ e, start_transaction s c tag m = Except.error e) ↔
      ¬ (1 ≤ c ∧ c ≤ s.n_connectors) ∨
        s.connStatus c ≠ ChargerStatus.Available) ∧
    (∀ e, start_transaction s c tag m = Except.error e →
      applyEvent s (ChargerEvent.startTxn c tag m) = s) ∧
    (∀ s' tid, start_transaction s c tag m = Except.ok (s', tid) →
      tid = s.nextId ∧
      s'.connStatus c = ChargerStatus.Preparing ∧
      (∀ c', c' ≠ c → s'.connStatus c' = s.connStatus c') ∧
      alookup tid s'.txns = some
        { connector_id := c
          id_tag := tag
          start_time := s.now
          meter_start := m
          meter_stop := none
          stop_time := none
          status := TransactionStatus.Active
          energy_delivered := 0
          current_power := 0 } ∧
      (∀ u, u ≠ tid → alookup u s'.txns = alookup u s.txns) ∧
      s'.connEnergy = s.connEnergy) := by
  have happly : ∀ e, start_transaction s c tag m = Except.error e →
      applyEvent s (ChargerEvent.startTxn c tag m) = s := by
    intro e he
    simp only [applyEvent, he]
  by_cases h1 : 1 ≤ c ∧ c ≤ s.n_connectors
  · by_cases h2 : s.connStatus c = ChargerStatus.Available
    · have hst : start_transaction s c tag m = Except.ok
          ({ s with
              connStatus := fun c' => if c' = c then ChargerStatus.Preparing
                else s.connStatus c'
              txns := (s.nextId,
                { connector_id := c
                  id_tag := tag
                  start_time := s.now
                  meter_start := m
                  meter_stop := none
                  stop_time := none
                  status := TransactionStatus.Active
                  energy_delivered := 0
                  current_power := 0 }) :: s.txns
              nextId := s.nextId + 1
              pendingPrep := s.pendingPrep ++ [s.nextId] }, s.nextId) := by
        rw [start_transaction, if_neg (not_not_intro h1),
          if_neg (not_not_intro h2)]
      refine ⟨⟨?_, ?_⟩, happly, fun s' tid h => ?_⟩
      · rintro ⟨e, he⟩
        rw [hst] at he
        cases he
      · rintro (h | h)
        · exact absurd h1 h
        · exact absurd h2 h
      · rw [hst] at h
        injection h with h
        injection h with hs htid
        subst hs
        refine ⟨htid.symm, by simp, fun c' hc' => by simp [hc'], ?_, ?_, rfl⟩
        · rw [← htid]
          simp [alookup]
        · intro u hu
          rw [← htid] at hu
          simp only [alookup]
          rw [if_neg (fun hq => hu hq.symm)]
    · have hst : start_transaction s c tag m =
          Except.error "Connector not available" := by
        rw [start_transaction, if_neg (not_not_intro h1), if_pos h2]
      exact ⟨⟨fun _ => Or.inr h2, fun _ => ⟨_, hst⟩⟩, happly,
        fun s' tid h => by rw [hst] at h; cases h⟩
  · have hst : start_transaction s c tag m =
        Except.error "Invalid connector ID" := by
      rw [start_transaction, if_pos h1]
    exact ⟨⟨fun _ => Or.inl h1, fun _ => ⟨_, hst⟩⟩, happly,
      fun s' tid h => by rw [hst] at h; cases h⟩

/-- Witness for C4: starting on connector 1 of a fresh two-connector
charger succeeds and yields a Preparing connector and an Active zero-energy
transaction, while connector 3 (out of range) fails. -/
theorem C4_start_transaction_witness :
    (∃ s' , start_transaction (mkCharger 2 22000 5000 0) 1 "tag" 4 =
      Except.ok (s', 0) ∧
      s'.connStatus 1 = ChargerStatus.Preparing ∧
      alookup 0 s'.txns = some
        { connector_id := 1
          id_tag := "tag"
          start_time := 0
          meter_start := 4
          meter_stop := none
          stop_time := none
          status := TransactionStatus.Active
          energy_delivered := 0
          current_power := 0 }) ∧
    (∃ e, start_transaction (mkCharger 2 22000 5000 0) 3 "tag" 0 =
      Except.error e) := by
  constructor
  · obtain ⟨-, -, hok⟩ := C4_start_transaction (mkCharger 2 22000 5000 0) 1
      "tag" 4
    refine ⟨_, rfl, ?_, ?_⟩
    · exact (hok _ 0 rfl).2.1
    · exact (hok _ 0 rfl).2.2.2.1
  · obtain ⟨hiff, -, -⟩ := C4_start_transaction (mkCharger 2 22000 5000 0) 3
      "tag" 0
    exact hiff.mpr (Or.inl (by norm_num [mkCharger]))

/-! ## Claim C10 -/

theorem isSome_alookup_updAt (u t : ℕ) (f : Transaction → Transaction)
    (l : List (ℕ × Transaction)) :
    (alookup u (updAt t f l)).isSome = (alookup u l).isSome := by
  by_cases h : u = t
  · subst h
    rw [alookup_updAt_self]
    cases alookup u l <;> rfl
  · rw [alookup_updAt_ne t u h]

/-- No event ever removes a transaction from the table. -/
theorem txns_never_removed (s : ChargerState) (e : ChargerEvent) (u : ℕ)
    (h : (alookup u s.txns).isSome) :
    (alookup u (applyEvent s e).txns).isSome := by
  cases e with
  | startTxn c tag m =>
      simp only [applyEvent]
      cases hst : start_transaction s c tag m with
      | error _ => exact h
      | ok p =>
          rw [start_transaction] at hst
          split_ifs at hst with h1 h2
          injection hst with hst
          rw [← hst]
          simp only [alookup]
          split_ifs with hn
          · rfl
          · exact h
  | stopTxn t =>
      simp only [applyEvent, stop_transaction]
      cases hl : alookup t s.txns with
      | none => exact h
      | some txn => simpa [isSome_alookup_updAt] using h
  | firePrep t =>
      simp only [applyEvent]
      split_ifs with hmem
      · simp only [start_charging]
        cases hl : alookup t s.txns with
        | none => exact h
        | some txn => simpa [isSome_alookup_updAt] using h
      · exact h
  | fireFinish t =>
      simp only [applyEvent]
      split_ifs with hmem
      · simp only [finish_transaction]
        cases hl : alookup t s.txns with
        | none => exact h
        | some txn => simpa [isSome_alookup_updAt] using h
      · exact h
  | tickEv =>
      simp only [applyEvent, tick, update_transactions]
      rw [alookup_mapSnd]
      cases hl : alookup u s.txns with
      | none => rw [hl] at h; simp at h
      | some txn => rfl

/-- C10: `stop_transaction` succeeds for *any* transaction id present in the
table — transactions are never removed — so stopping an already Stopped or
Completed transaction returns true again, forces its status back to
Stopped, re-assigns `meter_stop`, and moves its connector to Finishing
regardless of what the connector is currently doing. -/
theorem C10_stop_not_idempotent (s : ChargerState) (t : ℕ)
    (txn : Transaction) (h : alookup t s.txns = some txn) :
    (stop_transaction s t).1 = true ∧
    alookup t (stop_transaction s t).2.txns = some
      { txn with
          status := TransactionStatus.Stopped
          meter_stop := some (txn.meter_start + txn.energy_delivered)
          stop_time := some s.now } ∧
    (stop_transaction s t).2.connStatus txn.connector_id =
      ChargerStatus.Finishing ∧
    t ∈ (stop_transaction s t).2.pendingFinish ∧
    (∀ (e : ChargerEvent) (u : ℕ), (alookup u s.txns).isSome →
      (alookup u (applyEvent s e).txns).isSome) := by
  refine ⟨?_, ?_, ?_, ?_, fun e u hu => txns_never_removed s e u hu⟩
  · simp only [stop_transaction, h]
  · simp only [stop_transaction, h, alookup_updAt_self]
    rfl
  · simp [stop_transaction, h]
  · simp [stop_transaction, h]

def c10TxnOld : Transaction where
  connector_id := 1
  id_tag := "old"
  start_time := 0
  meter_start := 2
  meter_stop := some 5
  stop_time := some 100
  status := TransactionStatus.Completed
  energy_delivered := 3
  current_power := 0

def c10TxnNew : Transaction where
  connector_id := 1
  id_tag := "new"
  start_time := 200
  meter_start := 0
  meter_stop := none
  stop_time := none
  status := TransactionStatus.Active
  energy_delivered := 0
  current_power := 0

/-- A charger where transaction 0 already Completed on connector 1 and a
newer Active transaction 1 now occupies the same connector. -/
def c10State : ChargerState :=
  { mkCharger 2 22000 5000 250 with
      txns := [(1, c10TxnNew), (0, c10TxnOld)]
      nextId := 2
      connStatus := fun c => if c = 1 then ChargerStatus.Charging
        else ChargerStatus.Available }

/-- Witness for C10: stopping the Completed transaction 0 again returns
true, re-stops it with a re-assigned meter stop, and drags connector 1 —
currently Charging transaction 1 — to Finishing. -/
theorem C10_stop_not_idempotent_witness :
    (stop_transaction c10State 0).1 = true ∧
    alookup 0 (stop_transaction c10State 0).2.txns = some
      { c10TxnOld with
          status := TransactionStatus.Stopped
          meter_stop := some 5
          stop_time := some 250 } ∧
    (stop_transaction c10State 0).2.connStatus 1 =
      ChargerStatus.Finishing := by
  have h := C10_stop_not_idempotent c10State 0 c10TxnOld
    (by norm_num [c10State, alookup])
  refine ⟨h.1, ?_, h.2.2.1⟩
  rw [h.2.1]
  norm_num [c10TxnOld, c10State, mkCharger]

/-! ## Claim C3 -/

/-- Counterexample to C3 as stated: if `stop_transaction` runs before the
3-second preparation timer fires, the connector goes
Available → Preparing → Finishing, and the late `_start_charging` callback
— which checks only that the transaction id exists — then drags the
connector from Finishing back to Charging. -/
theorem C3_counterexample :
    (runEvents (mkCharger 2 22000 5000 0)
        [ChargerEvent.startTxn 1 "tag" 0,
          ChargerEvent.stopTxn 0]).connStatus 1 = ChargerStatus.Finishing ∧
    (runEvents (mkCharger 2 22000 5000 0)
        [ChargerEvent.startTxn 1 "tag" 0, ChargerEvent.stopTxn 0,
          ChargerEvent.firePrep 0]).connStatus 1 = ChargerStatus.Charging := by
  constructor <;> rfl

/-- C3, amended: the advertised
Available → Preparing → Charging → Finishing → Available sequence holds
whenever the delayed events fire in the nominal order — preparation before
the stop call, finishing last.  (When `stop_transaction` overtakes the
preparation event the connector revisits Charging from Finishing, as the
counterexample shows.) -/
theorem C3_status_sequence (s : ChargerState) (c : ℕ) (tag : String) (m : ℚ)
    (hvalid : 1 ≤ c ∧ c ≤ s.n_connectors)
    (havail : s.connStatus c = ChargerStatus.Available) :
    s.connStatus c = ChargerStatus.Available ∧
    (runEvents s [ChargerEvent.startTxn c tag m]).connStatus c =
      ChargerStatus.Preparing ∧
    (runEvents s [ChargerEvent.startTxn c tag m,
      ChargerEvent.firePrep s.nextId]).connStatus c =
      ChargerStatus.Charging ∧
    (runEvents s [ChargerEvent.startTxn c tag m,
      ChargerEvent.firePrep s.nextId,
      ChargerEvent.stopTxn s.nextId]).connStatus c =
      ChargerStatus.Finishing ∧
    (runEvents s [ChargerEvent.startTxn c tag m,
      ChargerEvent.firePrep s.nextId, ChargerEvent.stopTxn s.nextId,
      ChargerEvent.fireFinish s.nextId]).connStatus c =
      ChargerStatus.Available := by
  refine ⟨havail, ?_⟩
  have hno : ¬ s.n_connectors < c := by omega
  simp [runEvents, List.foldl, applyEvent, start_transaction, start_charging,
    stop_transaction, finish_transaction, alookup, updAt, hvalid.1,
    eq_false hno, havail]

/-- Witness for C3's amended sequence on a fresh two-connector charger. -/
theorem C3_status_sequence_witness :
    (runEvents (mkCharger 2 22000 5000 0)
        [ChargerEvent.startTxn 1 "w" 0]).connStatus 1 =
      ChargerStatus.Preparing ∧
    (runEvents (mkCharger 2 22000 5000 0)
        [ChargerEvent.startTxn 1 "w" 0, ChargerEvent.firePrep 0,
          ChargerEvent.stopTxn 0,
          ChargerEvent.fireFinish 0]).connStatus 1 =
      ChargerStatus.Available := by
  have h := C3_status_sequence (mkCharger 2 22000 5000 0) 1 "w" 0
    (by norm_num [mkCharger]) rfl
  exact ⟨h.2.1, h.2.2.2.2⟩

/-! ## Claim C5 -/

/-- All transaction keys are below the fresh-id counter (always true of
reachable states, since ids are allocated from the counter). -/
def KeysFresh (s : ChargerState) : Prop := ∀ p ∈ s.txns, p.1 < s.nextId

theorem alookup_mem (t : ℕ) (l : List (ℕ × Transaction)) (txn : Transaction)
    (h : alookup t l = some txn) : (t, txn) ∈ l := by
  induction l with
  | nil => cases h
  | cons p l ih =>
      rw [alookup] at h
      split_ifs at h with hp
      · obtain ⟨a, b⟩ := p
        injection h with h2
        cases hp
        cases h2
        exact List.mem_cons_self _ _
      · exact List.mem_cons_of_mem _ (ih h)

theorem mem_updAt_key (t : ℕ) (f : Transaction → Transaction)
    (l : List (ℕ × Transaction)) (p : ℕ × Transaction)
    (h : p ∈ updAt t f l) : ∃ q ∈ l, p.1 = q.1 := by
  rw [updAt] at h
  obtain ⟨q, hq, hpq⟩ := List.mem_map.mp h
  refine ⟨q, hq, ?_⟩
  rw [← hpq]
  split_ifs <;> rfl

theorem mem_mapSnd_key (f : Transaction → Transaction)
    (l : List (ℕ × Transaction)) (p : ℕ × Transaction)
    (h : p ∈ l.map fun pr => (pr.1, f pr.2)) : ∃ q ∈ l, p.1 = q.1 := by
  obtain ⟨q, hq, hpq⟩ := List.mem_map.mp h
  exact ⟨q, hq, by rw [← hpq]⟩

theorem KeysFresh_applyEvent (s : ChargerState) (e : ChargerEvent)
    (h : KeysFresh s) : KeysFresh (applyEvent s e) := by
  cases e with
  | startTxn c tag m =>
      simp only [applyEvent]
      cases hst : start_transaction s c tag m with
      | error _ => exact h
      | ok pr =>
          obtain ⟨s', tid⟩ := pr
          rw [start_transaction] at hst
          split_ifs at hst
          injection hst with hst
          injection hst with hs htid
          subst hs
          intro q hq
          rcases List.mem_cons.mp hq with h1 | h1
          · rw [h1]; exact Nat.lt_succ_self _
          · exact Nat.lt_succ_of_lt (h q h1)
  | stopTxn u =>
      cases hl : alookup u s.txns with
      | none => simpa only [applyEvent, stop_transaction, hl] using h
      | some txnu =>
          simp only [applyEvent, stop_transaction, hl, KeysFresh]
          intro q hq
          obtain ⟨r, hr, hqr⟩ := mem_updAt_key u _ s.txns q hq
          rw [hqr]; exact h r hr
  | firePrep u =>
      simp only [applyEvent]
      split_ifs with hmem
      · cases hl : alookup u s.txns with
        | none => simpa only [start_charging, hl, KeysFresh] using h
        | some txnu =>
            simp only [start_charging, hl, KeysFresh]
            intro q hq
            obtain ⟨r, hr, hqr⟩ := mem_updAt_key u _ s.txns q hq
            rw [hqr]; exact h r hr
      · exact h
  | fireFinish u =>
      simp only [applyEvent]
      split_ifs with hmem
      · cases hl : alookup u s.txns with
        | none => simpa only [finish_transaction, hl, KeysFresh] using h
        | some txnu =>
            simp only [finish_transaction, hl, KeysFresh]
            intro q hq
            obtain ⟨r, hr, hqr⟩ := mem_updAt_key u _ s.txns q hq
            rw [hqr]; exact h r hr
      · exact h
  | tickEv =>
      intro q hq
      obtain ⟨r, hr, hqr⟩ := mem_mapSnd_key _ s.txns q hq
      rw [hqr]; exact h r hr

/-- Transaction `t` is settled at value `v`: present, no longer Active,
with `meter_stop = some v` and `meter_start + energy_delivered = v`. -/
def MeterFixed (s : ChargerState) (t : ℕ) (v : ℚ) : Prop :=
  ∃ txn, alookup t s.txns = some txn ∧
    txn.status ≠ TransactionStatus.Active ∧
    txn.meter_stop = some v ∧ txn.meter_start + txn.energy_delivered = v

theorem MeterFixed_applyEvent (s : ChargerState) (e : ChargerEvent) (t : ℕ)
    (v : ℚ) (hf : KeysFresh s) (h : MeterFixed s t v) :
    MeterFixed (applyEvent s e) t v := by
  obtain ⟨txn, hl, hst, hms, hsum⟩ := h
  cases e with
  | startTxn c tag m =>
      simp only [applyEvent]
      cases hok : start_transaction s c tag m with
      | error _ => exact ⟨txn, hl, hst, hms, hsum⟩
      | ok pr =>
          obtain ⟨s', tid⟩ := pr
          rw [start_transaction] at hok
          split_ifs at hok
          injection hok with hok
          injection hok with hs htid
          subst hs
          refine ⟨txn, ?_, hst, hms, hsum⟩
          have hne : ¬ s.nextId = t := by
            intro hq
            have := hf (t, txn) (alookup_mem t s.txns txn hl)
            simp only at this
            omega
          simp only [alookup, if_neg hne]
          exact hl
  | stopTxn u =>
      cases hlu : alookup u s.txns with
      | none =>
          simp only [applyEvent, stop_transaction, hlu]
          exact ⟨txn, hl, hst, hms, hsum⟩
      | some txnu =>
          simp only [applyEvent, stop_transaction, hlu, MeterFixed]
          by_cases hut : u = t
          · subst hut
            rw [hlu] at hl
            injection hl with hl
            subst hl
            refine ⟨{ txnu with
                status := TransactionStatus.Stopped
                meter_stop := some (txnu.meter_start + txnu.energy_delivered)
                stop_time := some s.now }, ?_, ?_, ?_, ?_⟩
            · rw [alookup_updAt_self, hlu]
              rfl
            · intro hc
              cases hc
            · simp [hsum]
            · exact hsum
          · refine ⟨txn, ?_, hst, hms, hsum⟩
            rw [alookup_updAt_ne u t (fun hq => hut hq.symm)]
            exact hl
  | firePrep u =>
      cases hlu : alookup u s.txns with
      | none =>
          simp only [applyEvent, start_charging, hlu]
          split_ifs with hmem <;> exact ⟨txn, hl, hst, hms, hsum⟩
      | some txnu =>
          simp only [applyEvent, start_charging, hlu, MeterFixed]
          split_ifs with hmem
          case neg => exact ⟨txn, hl, hst, hms, hsum⟩
          case pos =>
            by_cases hut : u = t
            · subst hut
              rw [hlu] at hl
              injection hl with hl
              subst hl
              refine ⟨{ txnu with current_power := s.max_power * (1/10) },
                ?_, hst, hms, hsum⟩
              rw [alookup_updAt_self, hlu]
              rfl
            · refine ⟨txn, ?_, hst, hms, hsum⟩
              rw [alookup_updAt_ne u t (fun hq => hut hq.symm)]
              exact hl
  | fireFinish u =>
      cases hlu : alookup u s.txns with
      | none =>
          simp only [applyEvent, finish_transaction, hlu]
          split_ifs with hmem <;> exact ⟨txn, hl, hst, hms, hsum⟩
      | some txnu =>
          simp only [applyEvent, finish_transaction, hlu, MeterFixed]
          split_ifs with hmem
          case neg => exact ⟨txn, hl, hst, hms, hsum⟩
          case pos =>
            by_cases hut : u = t
            · subst hut
              rw [hlu] at hl
              injection hl with hl
              subst hl
              refine ⟨{ txnu with status := TransactionStatus.Completed },
                ?_, ?_, hms, hsum⟩
              · rw [alookup_updAt_self, hlu]
                rfl
              · intro hc
                cases hc
            · refine ⟨txn, ?_, hst, hms, hsum⟩
              rw [alookup_updAt_ne u t (fun hq => hut hq.symm)]
              exact hl
  | tickEv =>
      refine ⟨txn, ?_, hst, hms, hsum⟩
      show alookup t (s.txns.map fun pr => (pr.1, updateTxn s pr.2)) = _
      rw [alookup_mapSnd, hl]
      have hu : updateTxn s txn = txn := by
        rw [updateTxn, if_neg (fun hc => hst hc.1)]
      rw [Option.map_some', hu]

theorem MeterFixed_runEvents (s : ChargerState) (es : List ChargerEvent)
    (t : ℕ) (v : ℚ) (hf : KeysFresh s) (h : MeterFixed s t v) :
    MeterFixed (runEvents s es) t v := by
  induction es generalizing s with
  | nil => exact h
  | cons e es ih =>
      exact ih _ (KeysFresh_applyEvent s e hf)
        (MeterFixed_applyEvent s e t v hf h)

/-- Only a finishing event can turn a non-Available connector Available. -/
theorem connStatus_available_only_finish (s : ChargerState) (c : ℕ)
    (e : ChargerEvent) (h : s.connStatus c ≠ ChargerStatus.Available)
    (hm : ∀ u, e ≠ ChargerEvent.fireFinish u) :
    (applyEvent s e).connStatus c ≠ ChargerStatus.Available := by
  cases e with
  | startTxn c' tag m =>
      simp only [applyEvent]
      cases hok : start_transaction s c' tag m with
      | error _ => exact h
      | ok pr =>
          obtain ⟨s', tid⟩ := pr
          rw [start_transaction] at hok
          split_ifs at hok
          injection hok with hok
          injection hok with hs htid
          subst hs
          by_cases hc : c = c'
          · simp [hc]
          · simpa [hc] using h
  | stopTxn u =>
      simp only [applyEvent, stop_transaction]
      cases hlu : alookup u s.txns with
      | none => exact h
      | some txnu =>
          by_cases hc : c = txnu.connector_id
          · simp [hc]
          · simpa [hc] using h
  | firePrep u =>
      simp only [applyEvent]
      split_ifs with hmem
      · simp only [start_charging]
        cases hlu : alookup u s.txns with
        | none => exact h
        | some txnu =>
            by_cases hc : c = txnu.connector_id
            · simp [hc]
            · simpa [hc] using h
      · exact h
  | fireFinish u => exact absurd rfl (hm u)
  | tickEv => exact h

/-- A pending finishing event returns the transaction's connector to
Available and completes the transaction. -/
theorem fireFinish_effect (s : ChargerState) (u : ℕ) (txn : Transaction)
    (hmem : u ∈ s.pendingFinish) (hl : alookup u s.txns = some txn) :
    (applyEvent s (ChargerEvent.fireFinish u)).connStatus txn.connector_id =
      ChargerStatus.Available ∧
    alookup u (applyEvent s (ChargerEvent.fireFinish u)).txns =
      some { txn with status := TransactionStatus.Completed } := by
  simp only [applyEvent, if_pos hmem, finish_transaction, hl]
  constructor
  · simp
  · show alookup u (updAt u _ s.txns) = _
    rw [alookup_updAt_self, hl]
    rfl

/-- C5: `stop_transaction` returns false exactly on unknown ids, leaving
the state untouched; on a known id it returns true, fixes
`meter_stop = meter_start + energy_delivered` at that instant, moves the
connector to Finishing, and the fixed meter value then survives every
later event sequence; the connector can become Available again only
through a finishing event, which also completes the transaction. -/
theorem C5_stop_transaction (s : ChargerState) (t : ℕ) :
    ((stop_transaction s t).1 = false ↔ alookup t s.txns = none) ∧
    (alookup t s.txns = none → (stop_transaction s t).2 = s) ∧
    (∀ txn, alookup t s.txns = some txn →
      (stop_transaction s t).1 = true ∧
      alookup t (stop_transaction s t).2.txns = some
        { txn with
            status := TransactionStatus.Stopped
            meter_stop := some (txn.meter_start + txn.energy_delivered)
            stop_time := some s.now } ∧
      (stop_transaction s t).2.connStatus txn.connector_id =
        ChargerStatus.Finishing ∧
      (KeysFresh s → ∀ es, MeterFixed
        (runEvents (stop_transaction s t).2 es) t
        (txn.meter_start + txn.energy_delivered))) ∧
    (∀ c e, s.connStatus c ≠ ChargerStatus.Available →
      (∀ u, e ≠ ChargerEvent.fireFinish u) →
      (applyEvent s e).connStatus c ≠ ChargerStatus.Available) ∧
    (∀ u txn, u ∈ s.pendingFinish → alookup u s.txns = some txn →
      (applyEvent s (ChargerEvent.fireFinish u)).connStatus
        txn.connector_id = ChargerStatus.Available ∧
      alookup u (applyEvent s (ChargerEvent.fireFinish u)).txns =
        some { txn with status := TransactionStatus.Completed }) := by
  refine ⟨?_, ?_, ?_,
    fun c e h hm => connStatus_available_only_finish s c e h hm,
    fun u txn hm hl => fireFinish_effect s u txn hm hl⟩
  · cases hl : alookup t s.txns with
    | none => simp [stop_transaction, hl]
    | some txn => simp [stop_transaction, hl]
  · intro hl
    simp [stop_transaction, hl]
  · intro txn hl
    refine ⟨?_, ?_, ?_, ?_⟩
    · simp only [stop_transaction, hl]
    · simp only [stop_transaction, hl]
      show alookup t (updAt t _ s.txns) = _
      rw [alookup_updAt_self, hl]
      rfl
    · simp [stop_transaction, hl]
    · intro hkf es
      refine MeterFixed_runEvents _ es t _
        (KeysFresh_applyEvent s (ChargerEvent.stopTxn t) hkf) ?_
      refine ⟨{ txn with
          status := TransactionStatus.Stopped
          meter_stop := some (txn.meter_start + txn.energy_delivered)
          stop_time := some s.now }, ?_, ?_, rfl, rfl⟩
      · simp only [stop_transaction, hl]
        show alookup t (updAt t _ s.txns) = _
        rw [alookup_updAt_self, hl]
        rfl
      · intro hc
        cases hc

def c5Txn : Transaction where
  connector_id := 1
  id_tag := "w"
  start_time := 0
  meter_start := 2
  meter_stop := none
  stop_time := none
  status := TransactionStatus.Active
  energy_delivered := 3
  current_power := 2200

def c5State : ChargerState :=
  { mkCharger 1 22000 5000 50 with
      txns := [(0, c5Txn)]
      nextId := 1
      connStatus := fun c => if c = 1 then ChargerStatus.Charging
        else ChargerStatus.Available }

/-- Witness for C5: stopping the unknown id 7 fails, stopping transaction 0
succeeds, and its meter value `2 + 3 = 5` survives a later tick, a repeated
stop and the finishing event. -/
theorem C5_stop_transaction_witness :
    (stop_transaction c5State 7).1 = false ∧
    (stop_transaction c5State 0).1 = true ∧
    MeterFixed (runEvents (stop_transaction c5State 0).2
      [ChargerEvent.tickEv, ChargerEvent.stopTxn 0,
        ChargerEvent.fireFinish 0]) 0 (2 + 3) := by
  have h7 := (C5_stop_transaction c5State 7).1
  have h0 := (C5_stop_transaction c5State 0).2.2.1 c5Txn rfl
  exact ⟨h7.mpr rfl, h0.1,
    h0.2.2.2 (by simp [KeysFresh, c5State, mkCharger])
      [ChargerEvent.tickEv, ChargerEvent.stopTxn 0,
        ChargerEvent.fireFinish 0]⟩

/-! ## Claim C8 -/

/-- The tick duration in hours, `tick_interval_ms / 1000 / 3600` (line 296). -/
def tickHours (s : ChargerState) : ℚ := s.tick_interval_ms / 1000 / 3600

/-- The current power of transaction `t` as sampled from the state. -/
def powerOf (s : ChargerState) (t : ℕ) : ℚ :=
  ((alookup t s.txns).map Transaction.current_power).getD 0

/-- The power sample the `(k+1)`-st tick reports for transaction `t`
(`current_power` is recomputed before the energy increment uses it). -/
def sampledPower (s : ChargerState) (t k : ℕ) : ℚ :=
  powerOf (runTicks (k + 1) s) t

theorem tick_txn (s : ChargerState) (t : ℕ) (txn : Transaction)
    (hl : alookup t s.txns = some txn) :
    alookup t (tick s).txns = some (updateTxn s txn) := by
  show alookup t (s.txns.map fun pr => (pr.1, updateTxn s pr.2)) = _
  rw [alookup_mapSnd, hl, Option.map_some']

theorem updateTxn_status (s : ChargerState) (txn : Transaction) :
    (updateTxn s txn).status = txn.status := by
  rw [updateTxn]; split_ifs <;> rfl

theorem updateTxn_connector (s : ChargerState) (txn : Transaction) :
    (updateTxn s txn).connector_id = txn.connector_id := by
  rw [updateTxn]; split_ifs <;> rfl

theorem updateTxn_start_time (s : ChargerState) (txn : Transaction) :
    (updateTxn s txn).start_time = txn.start_time := by
  rw [updateTxn]; split_ifs <;> rfl

theorem updateTxn_charging (s : ChargerState) (txn : Transaction)
    (hA : txn.status = TransactionStatus.Active)
    (hC : s.connStatus txn.connector_id = ChargerStatus.Charging) :
    (updateTxn s txn).current_power =
      s.max_power * powerFactor ((s.now - txn.start_time) / 60) ∧
    (updateTxn s txn).energy_delivered = txn.energy_delivered +
      s.max_power * powerFactor ((s.now - txn.start_time) / 60) / 1000 *
        (s.tick_interval_ms / 1000 / 3600) := by
  rw [updateTxn, if_pos ⟨hA, hC⟩]
  exact ⟨rfl, rfl⟩

theorem updateTxn_not_charging (s : ChargerState) (txn : Transaction)
    (h : ¬ (txn.status = TransactionStatus.Active ∧
      s.connStatus txn.connector_id = ChargerStatus.Charging)) :
    updateTxn s txn = txn := by
  rw [updateTxn, if_neg h]

theorem txnIncrement_eq_diff (s : ChargerState) (txn : Transaction) :
    txnIncrement s txn =
      (updateTxn s txn).energy_delivered - txn.energy_delivered := by
  rw [updateTxn, txnIncrement]
  split_ifs with h
  · ring
  · simp

theorem runTicks_max_power (s : ChargerState) (n : ℕ) :
    (runTicks n s).max_power = s.max_power := by
  induction n with
  | zero => rfl
  | succ n ih => rw [runTicks]; exact ih

theorem runTicks_tick_interval (s : ChargerState) (n : ℕ) :
    (runTicks n s).tick_interval_ms = s.tick_interval_ms := by
  induction n with
  | zero => rfl
  | succ n ih => rw [runTicks]; exact ih

theorem runTicks_connStatus (s : ChargerState) (n : ℕ) :
    (runTicks n s).connStatus = s.connStatus := by
  induction n with
  | zero => rfl
  | succ n ih => rw [runTicks]; exact ih

theorem runTicks_now (s : ChargerState) (n : ℕ) :
    (runTicks n s).now = s.now + n * (s.tick_interval_ms / 1000) := by
  induction n with
  | zero => rw [runTicks]; push_cast; ring
  | succ n ih =>
      rw [runTicks]
      have hstep : (tick (runTicks n s)).now =
          (runTicks n s).now + (runTicks n s).tick_interval_ms / 1000 := rfl
      rw [hstep, ih, runTicks_tick_interval]
      push_cast
      ring

theorem tick_keys (s : ChargerState) :
    (tick s).txns.map Prod.fst = s.txns.map Prod.fst := by
  show (s.txns.map fun pr => (pr.1, updateTxn s pr.2)).map Prod.fst = _
  rw [List.map_map]
  rfl

theorem runTicks_keys (s : ChargerState) (n : ℕ) :
    (runTicks n s).txns.map Prod.fst = s.txns.map Prod.fst := by
  induction n with
  | zero => rfl
  | succ n ih => rw [runTicks, tick_keys]; exact ih

theorem alookup_of_mem_nodup (l : List (ℕ × Transaction))
    (hnd : (l.map Prod.fst).Nodup) (p : ℕ × Transaction) (h : p ∈ l) :
    alookup p.1 l = some p.2 := by
  induction l with
  | nil => cases h
  | cons q l ih =>
      rw [List.map_cons, List.nodup_cons] at hnd
      rcases List.mem_cons.mp h with rfl | hmem
      · simp [alookup]
      · rw [alookup]
        have hne : ¬ q.1 = p.1 := by
          intro hc
          exact hnd.1 (hc ▸ List.mem_map_of_mem Prod.fst hmem)
        rw [if_neg hne]
        exact ih hnd.2 hmem

theorem sum_single (l : List (ℕ × Transaction)) (t : ℕ) (txn : Transaction)
    (g : Transaction → ℚ) (hnd : (l.map Prod.fst).Nodup)
    (hl : alookup t l = some txn)
    (hz : ∀ p ∈ l, p.1 ≠ t → g p.2 = 0) :
    (l.map fun pr => g pr.2).sum = g txn := by
  induction l with
  | nil => cases hl
  | cons q l ih =>
      rw [alookup] at hl
      rw [List.map_cons, List.nodup_cons] at hnd
      rw [List.map_cons, List.sum_cons]
      split_ifs at hl with hq
      · injection hl with hl
        subst hl
        have hrest : (l.map fun pr => g pr.2).sum = 0 := by
          apply List.sum_eq_zero
          intro x hx
          obtain ⟨p, hp, hpx⟩ := List.mem_map.mp hx
          rw [← hpx]
          apply hz p (List.mem_cons_of_mem _ hp)
          intro hc
          exact hnd.1 (by rw [hq, ← hc]; exact List.mem_map_of_mem Prod.fst hp)
        rw [hrest, add_zero]
      · rw [hz q (List.mem_cons_self _ _) hq, zero_add]
        exact ih hnd.2 hl (fun p hp => hz p (List.mem_cons_of_mem _ hp))

theorem tick_connEnergy_single (s : ChargerState) (t : ℕ) (txn : Transaction)
    (c : ℕ) (hnd : (s.txns.map Prod.fst).Nodup)
    (hl : alookup t s.txns = some txn) (hc : txn.connector_id = c)
    (huniq : ∀ p ∈ s.txns, p.1 ≠ t →
      ¬ (p.2.status = TransactionStatus.Active ∧ p.2.connector_id = c)) :
    (tick s).connEnergy c = s.connEnergy c + txnIncrement s txn := by
  show s.connEnergy c +
    (s.txns.map fun pr =>
      if pr.2.connector_id = c then txnIncrement s pr.2 else 0).sum = _
  congr 1
  have hres := sum_single s.txns t txn
    (fun x => if x.connector_id = c then txnIncrement s x else 0) hnd hl ?_
  · rw [hres]
    show (if txn.connector_id = c then txnIncrement s txn else 0) =
      txnIncrement s txn
    rw [if_pos hc]
  · intro p hp hpt
    show (if p.2.connector_id = c then txnIncrement s p.2 else 0) = 0
    split_ifs with hcc
    · rw [txnIncrement, if_neg]
      rintro ⟨ha, -⟩
      exact huniq p hp hpt ⟨ha, hcc⟩
    · rfl

theorem tick_uniq_preserved (s : ChargerState) (t c : ℕ)
    (hu : ∀ p ∈ s.txns, p.1 ≠ t →
      ¬ (p.2.status = TransactionStatus.Active ∧ p.2.connector_id = c)) :
    ∀ p ∈ (tick s).txns, p.1 ≠ t →
      ¬ (p.2.status = TransactionStatus.Active ∧ p.2.connector_id = c) := by
  intro p hp hpt hcon
  have hp' : p ∈ s.txns.map fun pr => (pr.1, updateTxn s pr.2) := hp
  obtain ⟨q, hq, hqp⟩ := List.mem_map.mp hp'
  apply hu q hq (by rw [← hqp] at hpt; exact hpt)
  rw [← hqp] at hcon
  exact ⟨by rw [← updateTxn_status s q.2]; exact hcon.1,
    by rw [← updateTxn_connector s q.2]; exact hcon.2⟩

theorem runTicks_uniq (s : ChargerState) (t c : ℕ) (n : ℕ)
    (hu : ∀ p ∈ s.txns, p.1 ≠ t →
      ¬ (p.2.status = TransactionStatus.Active ∧ p.2.connector_id = c)) :
    ∀ p ∈ (runTicks n s).txns, p.1 ≠ t →
      ¬ (p.2.status = TransactionStatus.Active ∧ p.2.connector_id = c) := by
  induction n with
  | zero => exact hu
  | succ n ih => rw [runTicks]; exact tick_uniq_preserved _ t c ih

/-- C8: for a transaction that is Active, over any run of ticks its
`energy_delivered` is monotone non-decreasing, it stays Active, and — while
its connector is Charging — after `n` ticks the energy equals the starting
energy plus the Riemann sum of the sampled `current_power/1000` times the
tick duration in hours; the per-connector cumulative counter grows by
exactly the same total (when the transaction is the only Active one on its
connector and ids are unambiguous). -/
theorem C8_energy_riemann (s : ChargerState) (t : ℕ) (txn : Transaction)
    (n : ℕ) (hl : alookup t s.txns = some txn)
    (hA : txn.status = TransactionStatus.Active)
    (hmp : 0 ≤ s.max_power) (hI : 0 ≤ s.tick_interval_ms)
    (hstart : txn.start_time ≤ s.now) :
    (∀ k, energyOf (runTicks k s) t ≤ energyOf (runTicks (k + 1) s) t) ∧
    (∃ txn', alookup t (runTicks n s).txns = some txn' ∧
      txn'.status = TransactionStatus.Active ∧
      txn'.connector_id = txn.connector_id) ∧
    (s.connStatus txn.connector_id = ChargerStatus.Charging →
      energyOf (runTicks n s) t = txn.energy_delivered +
        ((List.range n).map fun k =>
          sampledPower s t k / 1000 * tickHours s).sum) ∧
    ((s.txns.map Prod.fst).Nodup →
      (∀ p ∈ s.txns, p.1 ≠ t →
        ¬ (p.2.status = TransactionStatus.Active ∧
          p.2.connector_id = txn.connector_id)) →
      (runTicks n s).connEnergy txn.connector_id =
        s.connEnergy txn.connector_id +
          (energyOf (runTicks n s) t - txn.energy_delivered)) := by
  have hstate : ∀ k, ∃ txn', alookup t (runTicks k s).txns = some txn' ∧
      txn'.status = TransactionStatus.Active ∧
      txn'.connector_id = txn.connector_id ∧
      txn'.start_time = txn.start_time := by
    intro k
    induction k with
    | zero => exact ⟨txn, hl, hA, rfl, rfl⟩
    | succ k ih =>
        obtain ⟨txn', h1, h2, h3, h4⟩ := ih
        refine ⟨updateTxn (runTicks k s) txn', ?_, ?_, ?_, ?_⟩
        · show alookup t (tick (runTicks k s)).txns = _
          exact tick_txn _ t txn' h1
        · rw [updateTxn_status]; exact h2
        · rw [updateTxn_connector]; exact h3
        · rw [updateTxn_start_time]; exact h4
  have helapsed : ∀ k (txn' : Transaction), txn'.start_time = txn.start_time →
      0 ≤ ((runTicks k s).now - txn'.start_time) / 60 := by
    intro k txn' h4
    rw [h4, runTicks_now]
    have hk : 0 ≤ (k : ℚ) * (s.tick_interval_ms / 1000) := by
      apply mul_nonneg (by positivity)
      exact div_nonneg hI (by norm_num)
    have : 0 ≤ s.now + k * (s.tick_interval_ms / 1000) - txn.start_time := by
      linarith
    linarith [div_nonneg this (by norm_num : (0:ℚ) ≤ 60)]
  have hEn : ∀ k (txn' : Transaction),
      alookup t (runTicks k s).txns = some txn' →
      energyOf (runTicks k s) t = txn'.energy_delivered := by
    intro k txn' h1
    rw [energyOf, h1]
    rfl
  have hEnStep : ∀ k (txn' : Transaction),
      alookup t (runTicks k s).txns = some txn' →
      energyOf (runTicks (k + 1) s) t =
        (updateTxn (runTicks k s) txn').energy_delivered := by
    intro k txn' h1
    have : alookup t (runTicks (k + 1) s).txns =
        some (updateTxn (runTicks k s) txn') := by
      show alookup t (tick (runTicks k s)).txns = _
      exact tick_txn _ t txn' h1
    rw [energyOf, this]
    rfl
  refine ⟨?_, ?_, ?_, ?_⟩
  · intro k
    obtain ⟨txn', h1, h2, h3, h4⟩ := hstate k
    rw [hEn k txn' h1, hEnStep k txn' h1]
    by_cases hch : (runTicks k s).connStatus txn'.connector_id =
        ChargerStatus.Charging
    · obtain ⟨-, he⟩ := updateTxn_charging _ _ h2 hch
      rw [he]
      have hpf := (powerFactor_bounds _ (helapsed k txn' h4)).1
      have hmp' : 0 ≤ (runTicks k s).max_power := by
        rw [runTicks_max_power]; exact hmp
      have hI' : 0 ≤ (runTicks k s).tick_interval_ms := by
        rw [runTicks_tick_interval]; exact hI
      have hpw : 0 ≤ (runTicks k s).max_power *
          powerFactor (((runTicks k s).now - txn'.start_time) / 60) :=
        mul_nonneg hmp' (le_trans (by norm_num) hpf)
      have hh : 0 ≤ (runTicks k s).tick_interval_ms / 1000 / 3600 :=
        div_nonneg (div_nonneg hI' (by norm_num)) (by norm_num)
      have := mul_nonneg (div_nonneg hpw (by norm_num : (0:ℚ) ≤ 1000)) hh
      linarith
    · rw [updateTxn_not_charging _ _ (fun hc => hch hc.2)]
  · obtain ⟨txn', h1, h2, h3, -⟩ := hstate n
    exact ⟨txn', h1, h2, h3⟩
  · intro hch
    induction n with
    | zero =>
        rw [hEn 0 txn hl]
        simp
    | succ n ih =>
        obtain ⟨txn', h1, h2, h3, h4⟩ := hstate n
        have hchn : (runTicks n s).connStatus txn'.connector_id =
            ChargerStatus.Charging := by
          rw [runTicks_connStatus, h3]; exact hch
        obtain ⟨hp, he⟩ := updateTxn_charging _ _ h2 hchn
        have hsp : sampledPower s t n =
            (updateTxn (runTicks n s) txn').current_power := by
          rw [sampledPower, powerOf]
          have : alookup t (runTicks (n + 1) s).txns =
              some (updateTxn (runTicks n s) txn') := by
            show alookup t (tick (runTicks n s)).txns = _
            exact tick_txn _ t txn' h1
          rw [this]
          rfl
        rw [hEnStep n txn' h1, he, List.range_succ, List.map_append,
          List.sum_append, ← hEn n txn' h1, ih]
        simp only [List.map_cons, List.map_nil, List.sum_cons, List.sum_nil]
        rw [hsp, hp, tickHours, runTicks_tick_interval]
        ring
  · intro hnd huniq
    induction n with
    | zero =>
        rw [hEn 0 txn hl]
        show s.connEnergy txn.connector_id = _
        ring
    | succ n ih =>
        obtain ⟨txn', h1, h2, h3, h4⟩ := hstate n
        have hndn : ((runTicks n s).txns.map Prod.fst).Nodup := by
          rw [runTicks_keys]; exact hnd
        have hce : (runTicks (n + 1) s).connEnergy txn.connector_id =
            (runTicks n s).connEnergy txn.connector_id +
              txnIncrement (runTicks n s) txn' := by
          show (tick (runTicks n s)).connEnergy txn.connector_id = _
          exact tick_connEnergy_single _ t txn' txn.connector_id hndn h1 h3
            (runTicks_uniq s t txn.connector_id n huniq)
        rw [hce, ih, txnIncrement_eq_diff, hEnStep n txn' h1, hEn n txn' h1]
        ring

def c8State : ChargerState :=
  { mkCharger 1 22000 5000 120 with
      txns := [(0, { c5Txn with energy_delivered := 0, meter_start := 0 })]
      nextId := 1
      connStatus := fun c => if c = 1 then ChargerStatus.Charging
        else ChargerStatus.Available }

/-- Witness for C8 at two ticks of a concrete charging transaction. -/
theorem C8_energy_riemann_witness :
    energyOf (runTicks 0 c8State) 0 ≤ energyOf (runTicks 1 c8State) 0 ∧
    energyOf (runTicks 2 c8State) 0 = 0 +
      ((List.range 2).map fun k =>
        sampledPower c8State 0 k / 1000 * tickHours c8State).sum ∧
    (runTicks 2 c8State).connEnergy 1 =
      c8State.connEnergy 1 + (energyOf (runTicks 2 c8State) 0 - 0) := by
  have h := C8_energy_riemann c8State 0
    { c5Txn with energy_delivered := 0, meter_start := 0 } 2 rfl rfl
    (by norm_num [c8State, mkCharger]) (by norm_num [c8State, mkCharger])
    (by norm_num [c8State, mkCharger, c5Txn])
  refine ⟨h.1 0, ?_, ?_⟩
  · have := h.2.2.1 (by norm_num [c8State, mkCharger, c5Txn])
    simpa [c5Txn] using this
  · have := h.2.2.2 (by simp [c8State, mkCharger])
      (by
        intro p hp hpt
        simp only [c8State] at hp
        rcases List.mem_singleton.mp hp with rfl
        exact absurd rfl hpt)
    simpa [c5Txn] using this

/-! ## Claim C6 -/

theorem reset_counters_fault_active (s : InverterState) :
    (reset_counters s).fault_active = s.fault_active := by
  simp only [reset_counters]
  split_ifs <;> rfl

theorem write_grid_slot_fault_active (s : InverterState) (g : ℝ) :
    (write_grid_slot s g).fault_active = s.fault_active := by
  simp only [write_grid_slot]
  split_ifs <;> rfl

theorem accumulate_energy_fault_active (s : InverterState) (p : ℝ) :
    (accumulate_energy s p).fault_active = s.fault_active := by
  simp only [accumulate_energy]
  split_ifs <;> rfl

/-- The fault flag after a tick is the one `_update_fault_status` left. -/
theorem invTick_fault_active (s : InverterState) (inp : InvInput) :
    (Inverter.tick s inp).1.fault_active =
      (Inverter.state_after_fault s inp).fault_active := by
  simp only [Inverter.tick]
  rw [accumulate_energy_fault_active, write_grid_slot_fault_active]

theorem invTick_solarPower (s : InverterState) (inp : InvInput) :
    (Inverter.tick s inp).2.solarPower = (Inverter.solar_result s inp).2 := by
  rcases hsr : Inverter.solar_result s inp with ⟨d, sp⟩
  simp only [Inverter.tick, hsr]

theorem invTick_is_daylight (s : InverterState) (inp : InvInput) :
    (Inverter.tick s inp).2.is_daylight = (Inverter.solar_result s inp).1 := by
  rcases hsr : Inverter.solar_result s inp with ⟨d, sp⟩
  simp only [Inverter.tick, hsr]

theorem invTick_gridPower (s : InverterState) (inp : InvInput) :
    (Inverter.tick s inp).2.gridPower = Inverter.grid_powerOf s inp := by
  simp only [Inverter.tick]

theorem invTick_reactivePower (s : InverterState) (inp : InvInput) :
    (Inverter.tick s inp).2.reactivePower =
      Inverter.reactive_powerOf s inp := by
  simp only [Inverter.tick]

/-- With the pre-tick fault flag set, the solar computation returns zero. -/
theorem solar_result_of_fault (s : InverterState) (inp : InvInput)
    (hf : s.fault_active = true) : (Inverter.solar_result s inp).2 = 0 := by
  rw [Inverter.solar_result]
  have hfa : (reset_counters (advance s)).fault_active = true := by
    rw [reset_counters_fault_active]; exact hf
  simp only [calculate_solar_power, hfa]
  simp

/-- The solar output is always within `[0, 1.3 * peak_output)` for cloud
noise in `[0, 0.6)`. -/
theorem calculate_solar_power_bounds (s : InverterState) (inp : InvInput)
    (hc0 : 0 ≤ inp.cloudNoise) (hc1 : inp.cloudNoise < 3/5) :
    0 ≤ (calculate_solar_power s inp).2 ∧
    (calculate_solar_power s inp).2 < 13/10 * 5000 := by
  simp only [calculate_solar_power]
  split_ifs with h
  · norm_num
  · refine ⟨le_max_left 0 _, max_lt (by norm_num) ?_⟩
    have hs1 := Real.sin_le_one
      (Real.pi * (((hourOf s.virtual_time : ℝ) - 6) / 12))
    have hs2 := Real.neg_one_le_sin
      (Real.pi * (((hourOf s.virtual_time : ℝ) - 6) / 12))
    nlinarith

/-- C6, amended: on every tick, if the fault flag was already set before
the tick then the emitted solar, grid and reactive power are all 0; if the
fault flag is set after the tick then grid and reactive power are 0 (solar
may be positive on the very tick a fault activates, since the source
computes it from the pre-update flag); the emitted solar power always lies
in `[0, 1.3 * peak_output)` — the cloud factor `0.7 + noise` can push it
up to 30 % above the configured peak of 5000 W, so `peak_output` itself is
not an upper bound; and in non-fault ticks grid = solar × 0.98 and
reactive = grid × 0.05. -/
theorem C6_solar_power (s : InverterState) (inp : InvInput)
    (hc0 : 0 ≤ inp.cloudNoise) (hc1 : inp.cloudNoise < 3/5) :
    (s.fault_active = true →
      (Inverter.tick s inp).2.solarPower = 0 ∧
      (Inverter.tick s inp).2.gridPower = 0 ∧
      (Inverter.tick s inp).2.reactivePower = 0) ∧
    ((Inverter.tick s inp).1.fault_active = true →
      (Inverter.tick s inp).2.gridPower = 0 ∧
      (Inverter.tick s inp).2.reactivePower = 0) ∧
    (0 ≤ (Inverter.tick s inp).2.solarPower ∧
      (Inverter.tick s inp).2.solarPower < 13/10 * 5000) ∧
    ((Inverter.tick s inp).1.fault_active = false →
      (Inverter.tick s inp).2.gridPower =
        (Inverter.tick s inp).2.solarPower * 0.98 ∧
      (Inverter.tick s inp).2.reactivePower =
        (Inverter.tick s inp).2.gridPower * 0.05) := by
  refine ⟨?_, ?_, ?_, ?_⟩
  · intro hf
    have hsolar0 : (Inverter.solar_result s inp).2 = 0 :=
      solar_result_of_fault s inp hf
    refine ⟨by rw [invTick_solarPower, hsolar0], ?_, ?_⟩
    · rw [invTick_gridPower]
      simp only [Inverter.grid_powerOf, hsolar0]
      split_ifs <;> norm_num
    · rw [invTick_reactivePower]
      simp only [Inverter.reactive_powerOf, Inverter.grid_powerOf, hsolar0]
      split_ifs <;> norm_num
  · intro hf
    rw [invTick_fault_active] at hf
    constructor
    · rw [invTick_gridPower]
      simp [Inverter.grid_powerOf, hf]
    · rw [invTick_reactivePower]
      simp [Inverter.reactive_powerOf, hf]
  · rw [invTick_solarPower, Inverter.solar_result]
    exact calculate_solar_power_bounds _ inp hc0 hc1
  · intro hf
    rw [invTick_fault_active] at hf
    constructor
    · rw [invTick_gridPower, invTick_solarPower]
      simp [Inverter.grid_powerOf, hf]
    · rw [invTick_reactivePower, invTick_gridPower]
      simp [Inverter.reactive_powerOf, hf]

/-- Witness for C6 at virtual midnight with zero cloud noise. -/
theorem C6_solar_power_witness :
    0 ≤ (Inverter.tick (mkInverter 0) ⟨0, 0, 0⟩).2.solarPower ∧
    (Inverter.tick (mkInverter 0) ⟨0, 0, 0⟩).2.solarPower < 13/10 * 5000 ∧
    ((Inverter.tick (mkInverter 0) ⟨0, 0, 0⟩).1.fault_active = false →
      (Inverter.tick (mkInverter 0) ⟨0, 0, 0⟩).2.gridPower =
        (Inverter.tick (mkInverter 0) ⟨0, 0, 0⟩).2.solarPower * 0.98) := by
  have h := C6_solar_power (mkInverter 0) ⟨0, 0, 0⟩ (by norm_num)
    (by norm_num)
  exact ⟨h.2.2.1.1, h.2.2.1.2, fun hf => (h.2.2.2 hf).1⟩

/-- A state five virtual minutes before noon on 1970-01-01, no fault. -/
def c6State : InverterState := mkInverter 42900

/-- Counterexample to C6 as stated: at virtual noon with cloud noise 0.5
(cloud factor 1.2, inside the source's 0.7–1.3 band), daylight holds, no
fault is active before or after the tick, and the emitted solar power is
6000 W — strictly above the configured peak output of 5000 W, so solar
power does *not* lie within `[0, peak_output]`. -/
theorem C6_counterexample :
    c6State.fault_active = false ∧
    (Inverter.tick c6State ⟨1/2, 0, 0⟩).1.fault_active = false ∧
    (Inverter.tick c6State ⟨1/2, 0, 0⟩).2.is_daylight = true ∧
    (Inverter.tick c6State ⟨1/2, 0, 0⟩).2.solarPower = 6000 ∧
    (5000 : ℝ) < (Inverter.tick c6State ⟨1/2, 0, 0⟩).2.solarPower := by
  have hrc : reset_counters (advance c6State) = advance c6State := by
    rw [reset_counters]
    norm_num [advance, c6State, mkInverter, hourOf, minuteOf]
  have hsolar : (Inverter.tick c6State ⟨1/2, 0, 0⟩).2.solarPower = 6000 := by
    rw [invTick_solarPower, Inverter.solar_result, hrc]
    simp only [calculate_solar_power, advance, c6State, mkInverter]
    norm_num [hourOf]
    have hang : Real.pi * ((1 : ℝ) / 2) = Real.pi / 2 := by ring
    rw [hang, Real.sin_pi_div_two]
    rw [show (5000 : ℝ) * 1 * (6 / 5) = 6000 by norm_num]
    exact max_eq_right (by norm_num)
  refine ⟨rfl, ?_, ?_, hsolar, by rw [hsolar]; norm_num⟩
  · rw [invTick_fault_active, Inverter.state_after_fault, hrc]
    rfl
  · rw [invTick_is_daylight, Inverter.solar_result, hrc]
    simp only [calculate_solar_power, advance, c6State, mkInverter]
    norm_num [hourOf]

/-! ## Claim C7 -/

theorem reset_counters_daily (s : InverterState) :
    (reset_counters s).daily =
      if hourOf s.virtual_time = 0 ∧ minuteOf s.virtual_time = 0 then 0
      else s.daily := by
  simp only [reset_counters]
  split_ifs <;> rfl

theorem reset_counters_gpd (s : InverterState) :
    (reset_counters s).grid_power_data =
      if hourOf s.virtual_time = 0 ∧ minuteOf s.virtual_time = 0 then
        List.replicate 288 0
      else s.grid_power_data := by
  simp only [reset_counters]
  split_ifs <;> rfl

theorem update_fault_status_daily (s : InverterState) (inp : InvInput) :
    (update_fault_status s inp).daily = s.daily := by
  simp only [update_fault_status]
  split_ifs <;> rfl

theorem update_fault_status_gpd (s : InverterState) (inp : InvInput) :
    (update_fault_status s inp).grid_power_data = s.grid_power_data := by
  simp only [update_fault_status]
  split_ifs <;> rfl

theorem write_grid_slot_daily (s : InverterState) (g : ℝ) :
    (write_grid_slot s g).daily = s.daily := by
  simp only [write_grid_slot]
  split_ifs <;> rfl

theorem accumulate_energy_gpd (s : InverterState) (p : ℝ) :
    (accumulate_energy s p).grid_power_data = s.grid_power_data := by
  simp only [accumulate_energy]
  split_ifs <;> rfl

theorem accumulate_energy_daily (s : InverterState) (p : ℝ) :
    (accumulate_energy s p).daily =
      s.daily + (if s.fault_active then 0 else energy_increment p) := by
  simp only [accumulate_energy]
  split_ifs with h h2 h2 <;> simp_all

/-- The written slot index is always in range (hour < 24, minute < 60). -/
theorem grid_slot_index_lt (t : ℕ) : hourOf t * 12 + minuteOf t / 5 < 288 := by
  unfold hourOf minuteOf
  omega

theorem write_grid_slot_gpd (s : InverterState) (g : ℝ) :
    (write_grid_slot s g).grid_power_data =
      s.grid_power_data.set
        (hourOf s.virtual_time * 12 + minuteOf s.virtual_time / 5)
        (g / 1000) := by
  simp only [write_grid_slot]
  rw [if_pos (grid_slot_index_lt s.virtual_time)]

theorem state_after_fault_daily (s : InverterState) (inp : InvInput) :
    (Inverter.state_after_fault s inp).daily =
      if hourOf (s.virtual_time + 300) = 0 ∧
          minuteOf (s.virtual_time + 300) = 0 then 0
      else s.daily := by
  rw [Inverter.state_after_fault, update_fault_status_daily,
    reset_counters_daily]
  rfl

theorem state_after_fault_gpd (s : InverterState) (inp : InvInput) :
    (Inverter.state_after_fault s inp).grid_power_data =
      if hourOf (s.virtual_time + 300) = 0 ∧
          minuteOf (s.virtual_time + 300) = 0 then List.replicate 288 0
      else s.grid_power_data := by
  rw [Inverter.state_after_fault, update_fault_status_gpd, reset_counters_gpd]
  rfl

theorem invTick_daily (s : InverterState) (inp : InvInput) :
    (Inverter.tick s inp).1.daily =
      (if hourOf (s.virtual_time + 300) = 0 ∧
          minuteOf (s.virtual_time + 300) = 0 then 0 else s.daily) +
        (if (Inverter.state_after_fault s inp).fault_active then 0
          else energy_increment (Inverter.solar_result s inp).2) := by
  simp only [Inverter.tick]
  rw [accumulate_energy_daily, write_grid_slot_daily,
    write_grid_slot_fault_active, state_after_fault_daily]

theorem invTick_gpd (s : InverterState) (inp : InvInput) :
    (Inverter.tick s inp).1.grid_power_data =
      ((if hourOf (s.virtual_time + 300) = 0 ∧
          minuteOf (s.virtual_time + 300) = 0 then List.replicate 288 0
        else s.grid_power_data)).set
        (hourOf (s.virtual_time + 300) * 12 + minuteOf (s.virtual_time + 300) / 5)
        (Inverter.grid_powerOf s inp / 1000) := by
  simp only [Inverter.tick]
  rw [accumulate_energy_gpd, write_grid_slot_gpd, state_after_fault_gpd,
    state_after_fault_virtual_time]

/-- When the post-advance hour is 0, the fallback daylight test fails and
the solar output of the tick is 0. -/
theorem solar_result_hour_zero (s : InverterState) (inp : InvInput)
    (h : hourOf (s.virtual_time + 300) = 0) :
    (Inverter.solar_result s inp).2 = 0 := by
  rw [Inverter.solar_result]
  have hvt : (reset_counters (advance s)).virtual_time =
      s.virtual_time + 300 := by
    rw [reset_counters_virtual_time]
    rfl
  simp only [calculate_solar_power, hvt, h]
  norm_num

theorem getD_all_zero (l : List ℝ) (hz : ∀ x ∈ l, x = 0) (i : ℕ) :
    l.getD i 0 = 0 := by
  induction l generalizing i with
  | nil => rw [List.getD_nil]
  | cons a l ih =>
      cases i with
      | zero =>
          rw [List.getD_cons_zero]
          exact hz a (List.mem_cons_self _ _)
      | succ i =>
          rw [List.getD_cons_succ]
          exact ih (fun x hx => hz x (List.mem_cons_of_mem _ hx)) i

theorem crossing_of_reset (t0 : ℕ) (h0 : hourOf (t0 + 300) = 0)
    (hm : minuteOf (t0 + 300) = 0) : t0 / 86400 < (t0 + 300) / 86400 := by
  unfold hourOf at h0
  unfold minuteOf at hm
  omega

/-- C7, amended: the sample sequence always has exactly 288 slots; the
daily counter and all 288 slots are zeroed exactly at ticks whose
post-advance virtual time has hour 0 and minute 0, and every such tick
crosses virtual midnight.  The converse direction of the claim fails:
for start times whose minute is not a multiple of 5 the midnight-crossing
tick does not land on hour 0 / minute 0, so no reset occurs. -/
theorem C7_sample_sequence (s : InverterState) (inp : InvInput) (st : ℕ) :
    (mkInverter st).grid_power_data.length = 288 ∧
    (s.grid_power_data.length = 288 →
      (Inverter.tick s inp).1.grid_power_data.length = 288) ∧
    (hourOf (s.virtual_time + 300) = 0 ∧ minuteOf (s.virtual_time + 300) = 0 →
      (Inverter.tick s inp).1.daily = 0 ∧
      (∀ i, (Inverter.tick s inp).1.grid_power_data.getD i 0 = 0) ∧
      s.virtual_time / 86400 < (s.virtual_time + 300) / 86400) ∧
    (¬ (hourOf (s.virtual_time + 300) = 0 ∧
        minuteOf (s.virtual_time + 300) = 0) →
      (Inverter.tick s inp).1.daily = s.daily +
        (if (Inverter.state_after_fault s inp).fault_active then 0
          else energy_increment (Inverter.solar_result s inp).2) ∧
      (∀ i, i ≠ hourOf (s.virtual_time + 300) * 12 +
          minuteOf (s.virtual_time + 300) / 5 →
        (Inverter.tick s inp).1.grid_power_data.getD i 0 =
          s.grid_power_data.getD i 0)) := by
  refine ⟨?_, ?_, ?_, ?_⟩
  · rw [show (mkInverter st).grid_power_data = List.replicate 288 0 from rfl,
      List.length_replicate]
  · intro hlen
    rw [invTick_gpd, List.length_set]
    split_ifs with h
    · rw [List.length_replicate]
    · exact hlen
  · rintro ⟨h0, hm⟩
    have hsolar := solar_result_hour_zero s inp h0
    refine ⟨?_, ?_, crossing_of_reset s.virtual_time h0 hm⟩
    · rw [invTick_daily, if_pos ⟨h0, hm⟩, hsolar]
      rw [energy_increment]
      split_ifs <;> norm_num
    · intro i
      rw [invTick_gpd, if_pos ⟨h0, hm⟩]
      apply getD_all_zero
      intro x hx
      rcases List.mem_or_eq_of_mem_set hx with hx' | hx'
      · exact List.eq_of_mem_replicate hx'
      · rw [hx', Inverter.grid_powerOf]
        split_ifs with hfa
        · norm_num
        · rw [hsolar]; norm_num
  · intro hno
    constructor
    · rw [invTick_daily, if_neg hno]
    · intro i hi
      rw [invTick_gpd, if_neg hno]
      rw [List.getD_eq_getElem?_getD, List.getD_eq_getElem?_getD,
        List.getElem?_set_ne (fun hq => hi hq.symm)]

/-- Witness for C7: from an aligned start at 23:55:00 the next tick lands
exactly on midnight and zeroes the daily counter and every slot. -/
theorem C7_sample_sequence_witness :
    (mkInverter 0).grid_power_data.length = 288 ∧
    (Inverter.tick (mkInverter 86100) ⟨0, 0, 0⟩).1.daily = 0 ∧
    (Inverter.tick (mkInverter 86100) ⟨0, 0, 0⟩).1.grid_power_data.getD 7 0 =
      0 := by
  have h := C7_sample_sequence (mkInverter 86100) ⟨0, 0, 0⟩ 0
  have hc := h.2.2.1 ⟨by norm_num [mkInverter, hourOf],
    by norm_num [mkInverter, minuteOf]⟩
  exact ⟨h.1, hc.1, hc.2.1 7⟩

/-- A state at 23:57 (minute not a multiple of 5) with live data. -/
def c7State : InverterState :=
  { mkInverter 86220 with
      daily := 1
      grid_power_data := List.replicate 288 1 }

/-- Counterexample to C7 as stated: starting at virtual 23:57:00 the next
tick lands at 00:02:00 of the next day — it crosses virtual midnight — yet
the daily counter stays 1 and slot 5 of the sample sequence stays 1: no
reset happens, because the source's reset test (`hour == 0 and
minute == 0`, line 120) never fires for start times off the 5-minute grid. -/
theorem C7_counterexample :
    c7State.virtual_time / 86400 <
      (Inverter.tick c7State ⟨0, 0, 0⟩).1.virtual_time / 86400 ∧
    (Inverter.tick c7State ⟨0, 0, 0⟩).1.daily = 1 ∧
    (Inverter.tick c7State ⟨0, 0, 0⟩).1.grid_power_data.getD 5 0 = 1 := by
  have hvt : (Inverter.tick c7State ⟨0, 0, 0⟩).1.virtual_time = 86520 := by
    rw [invTick_virtual_time]
    norm_num [c7State, mkInverter]
  have hno : ¬ (hourOf (c7State.virtual_time + 300) = 0 ∧
      minuteOf (c7State.virtual_time + 300) = 0) := by
    rintro ⟨-, hm⟩
    norm_num [c7State, mkInverter, minuteOf] at hm
  have hsolar : (Inverter.solar_result c7State ⟨0, 0, 0⟩).2 = 0 :=
    solar_result_hour_zero c7State ⟨0, 0, 0⟩
      (by norm_num [c7State, mkInverter, hourOf])
  refine ⟨?_, ?_, ?_⟩
  · rw [hvt]
    norm_num [c7State, mkInverter]
  · rw [invTick_daily, if_neg hno, hsolar]
    have : c7State.daily = 1 := rfl
    rw [this, energy_increment]
    split_ifs <;> norm_num
  · rw [invTick_gpd, if_neg hno]
    have hidx : hourOf (c7State.virtual_time + 300) * 12 +
        minuteOf (c7State.virtual_time + 300) / 5 = 0 := by
      norm_num [c7State, mkInverter, hourOf, minuteOf]
    rw [hidx]
    rw [List.getD_eq_getElem?_getD,
      List.getElem?_set_ne (by norm_num : (0 : ℕ) ≠ 5)]
    have : c7State.grid_power_data = List.replicate 288 1 := rfl
    rw [this]
    rw [List.getElem?_replicate]
    norm_num

/-! ## Claim C9 -/

/-- Does this transaction-table entry hold an Active transaction on
connector `c`? -/
def entryActiveOn (c : ℕ) (pr : ℕ × Transaction) : Bool :=
  decide (pr.2.status = TransactionStatus.Active ∧ pr.2.connector_id = c)

/-- Number of Active transactions referencing connector `c`. -/
def countActive (s : ChargerState) (c : ℕ) : ℕ :=
  s.txns.countP (entryActiveOn c)

/-- Is `t` a pending finishing event for a transaction on connector `c`
(with respect to the transaction table `l`)? -/
def pfOn (l : List (ℕ × Transaction)) (c : ℕ) (t : ℕ) : Bool :=
  decide ((alookup t l).map Transaction.connector_id = some c)

/-- Number of pending finishing events for connector `c`. -/
def countPF (s : ChargerState) (c : ℕ) : ℕ :=
  s.pendingFinish.countP (pfOn s.txns c)

theorem exists_split_of_alookup (l : List (ℕ × Transaction))
    (hnd : (l.map Prod.fst).Nodup) (t : ℕ) (txn : Transaction)
    (hl : alookup t l = some txn) :
    ∃ l₁ l₂, l = l₁ ++ (t, txn) :: l₂ ∧ (∀ p ∈ l₁, p.1 ≠ t) ∧
      (∀ p ∈ l₂, p.1 ≠ t) := by
  induction l with
  | nil => cases hl
  | cons q l ih =>
      rw [List.map_cons, List.nodup_cons] at hnd
      rw [alookup] at hl
      split_ifs at hl with hq
      · injection hl with hl
        refine ⟨[], l, ?_, by simp, ?_⟩
        · have hqe : q = (t, txn) := Prod.ext hq hl
          rw [hqe, List.nil_append]
        · intro p hp hc
          exact hnd.1 (by rw [hq, ← hc]; exact List.mem_map_of_mem Prod.fst hp)
      · obtain ⟨l₁, l₂, he, h1, h2⟩ := ih hnd.2 hl
        exact ⟨q :: l₁, l₂, by rw [he, List.cons_append], fun p hp => by
          rcases List.mem_cons.mp hp with rfl | hp'
          · exact hq
          · exact h1 p hp', h2⟩

theorem map_id_of_key_ne (t : ℕ) (f : Transaction → Transaction)
    (l : List (ℕ × Transaction)) (h : ∀ p ∈ l, p.1 ≠ t) :
    l.map (fun p => if p.1 = t then (p.1, f p.2) else p) = l := by
  induction l with
  | nil => rfl
  | cons q l ih =>
      rw [List.map_cons, if_neg (h q (List.mem_cons_self q l)),
        ih (fun p hp => h p (List.mem_cons_of_mem q hp))]

theorem updAt_split (t : ℕ) (txn : Transaction)
    (f : Transaction → Transaction) (l₁ l₂ : List (ℕ × Transaction))
    (h1 : ∀ p ∈ l₁, p.1 ≠ t) (h2 : ∀ p ∈ l₂, p.1 ≠ t) :
    updAt t f (l₁ ++ (t, txn) :: l₂) = l₁ ++ (t, f txn) :: l₂ := by
  rw [updAt, List.map_append, List.map_cons, map_id_of_key_ne t f l₁ h1,
    map_id_of_key_ne t f l₂ h2, if_pos rfl]

theorem countP_erase (l : List ℕ) (t : ℕ) (p : ℕ → Bool) (h : t ∈ l) :
    l.countP p = (l.erase t).countP p + (if p t then 1 else 0) := by
  induction l with
  | nil => cases h
  | cons a l ih =>
      by_cases hat : a = t
      · subst hat
        rw [List.erase_cons_head, List.countP_cons]
      · have hmem : t ∈ l := by
          rcases List.mem_cons.mp h with hq | hmem
          · exact absurd hq.symm hat
          · exact hmem
        rw [List.erase_cons_tail (by simp [hat]), List.countP_cons,
          List.countP_cons, ih hmem]
        split_ifs <;> omega

theorem alookup_updAt_connector (t u : ℕ) (f : Transaction → Transaction)
    (hf : ∀ x, (f x).connector_id = x.connector_id)
    (l : List (ℕ × Transaction)) :
    ((alookup u (updAt t f l)).map Transaction.connector_id) =
      ((alookup u l).map Transaction.connector_id) := by
  by_cases hut : u = t
  · subst hut
    rw [alookup_updAt_self]
    cases alookup u l with
    | none => rfl
    | some x => simp [hf x]
  · rw [alookup_updAt_ne t u hut]

theorem countP_updAt (t : ℕ) (txn : Transaction)
    (f : Transaction → Transaction) (l : List (ℕ × Transaction))
    (hnd : (l.map Prod.fst).Nodup) (hl : alookup t l = some txn)
    (p : ℕ × Transaction → Bool) :
    (updAt t f l).countP p + (if p (t, txn) then 1 else 0) =
      l.countP p + (if p (t, f txn) then 1 else 0) := by
  obtain ⟨l₁, l₂, he, h1, h2⟩ := exists_split_of_alookup l hnd t txn hl
  subst he
  rw [updAt_split t txn f l₁ l₂ h1 h2, List.countP_append, List.countP_append,
    List.countP_cons, List.countP_cons]
  split_ifs <;> omega

theorem countP_congr_on {α : Type} (l : List α) (p q : α → Bool)
    (h : ∀ a ∈ l, p a = q a) : l.countP p = l.countP q := by
  induction l with
  | nil => rfl
  | cons a l ih =>
      rw [List.countP_cons, List.countP_cons, h a (List.mem_cons_self a l),
        ih (fun t ht => h t (List.mem_cons_of_mem a ht))]

theorem countP_mapSnd (f : Transaction → Transaction)
    (l : List (ℕ × Transaction)) (p : ℕ × Transaction → Bool)
    (h : ∀ pr, p (pr.1, f pr.2) = p pr) :
    (l.map fun pr => (pr.1, f pr.2)).countP p = l.countP p := by
  induction l with
  | nil => rfl
  | cons q l ih =>
      rw [List.map_cons, List.countP_cons, List.countP_cons, h q, ih]

theorem updAt_keys (t : ℕ) (f : Transaction → Transaction)
    (l : List (ℕ × Transaction)) :
    (updAt t f l).map Prod.fst = l.map Prod.fst := by
  rw [updAt, List.map_map]
  apply List.map_congr_left
  intro p hp
  by_cases h : p.1 = t <;> simp [Function.comp, h]

theorem mapSnd_keys (f : Transaction → Transaction)
    (l : List (ℕ × Transaction)) :
    ((l.map fun pr => (pr.1, f pr.2)).map Prod.fst) = l.map Prod.fst := by
  rw [List.map_map]
  apply List.map_congr_left
  intro p hp
  rfl

/-- The guard distinguishing nominal API usage: `stop_transaction` is only
invoked on ids that are currently Active (or unknown).  All other events are
unrestricted. -/
def okEvent (s : ChargerState) : ChargerEvent → Bool
  | ChargerEvent.stopTxn t =>
      match alookup t s.txns with
      | some txn => decide (txn.status = TransactionStatus.Active)
      | none => true
  | _ => true

/-- A trace is good when every `stop_transaction` along it hits an Active
(or unknown) transaction id. -/
def goodTrace : ChargerState → List ChargerEvent → Bool
  | _, [] => true
  | s, e :: es => okEvent s e && goodTrace (applyEvent s e) es

/-- The connector-occupancy invariant: keys are fresh and duplicate-free,
every pending finishing event points at a settled transaction, each
connector carries at most one Active transaction or pending finish, and an
Available connector carries none. -/
structure CInv (s : ChargerState) : Prop where
  fresh : ∀ p ∈ s.txns, p.1 < s.nextId
  nodup : (s.txns.map Prod.fst).Nodup
  settled : ∀ t ∈ s.pendingFinish, ∃ txn, alookup t s.txns = some txn ∧
    txn.status ≠ TransactionStatus.Active
  bound : ∀ c, countActive s c + countPF s c ≤ 1
  avail : ∀ c, s.connStatus c = ChargerStatus.Available →
    countActive s c = 0 ∧ countPF s c = 0

theorem ite_entryActiveOn_active (c t : ℕ) (x : Transaction)
    (hx : x.status = TransactionStatus.Active) :
    (if entryActiveOn c (t, x) then 1 else 0) =
      (if x.connector_id = c then 1 else 0) := by
  simp [entryActiveOn, hx]

theorem ite_entryActiveOn_not_active (c t : ℕ) (x : Transaction)
    (hx : x.status ≠ TransactionStatus.Active) :
    (if entryActiveOn c (t, x) then 1 else 0) = 0 := by
  simp [entryActiveOn, hx]

theorem CInv_applyEvent (s : ChargerState) (e : ChargerEvent)
    (hs : CInv s) (hok : okEvent s e = true) : CInv (applyEvent s e) := by
  obtain ⟨hfresh, hnodup, hsettled, hbound, havail⟩ := hs
  cases e with
  | startTxn c0 tag m =>
      simp only [applyEvent]
      cases hst : start_transaction s c0 tag m with
      | error _ => exact ⟨hfresh, hnodup, hsettled, hbound, havail⟩
      | ok pr =>
          obtain ⟨s', tid⟩ := pr
          show CInv s'
          rw [start_transaction] at hst
          split_ifs at hst with h1 h2
          injection hst with hst
          injection hst with hs' htid
          have hav : s.connStatus c0 = ChargerStatus.Available := not_not.mp h2
          have htx : s'.txns = (s.nextId,
              { connector_id := c0
                id_tag := tag
                start_time := s.now
                meter_start := m
                meter_stop := none
                stop_time := none
                status := TransactionStatus.Active
                energy_delivered := 0
                current_power := 0 : Transaction }) :: s.txns := by rw [← hs']
          have hpfe : s'.pendingFinish = s.pendingFinish := by rw [← hs']
          have hnie : s'.nextId = s.nextId + 1 := by rw [← hs']
          have hcse : s'.connStatus = fun c =>
              if c = c0 then ChargerStatus.Preparing else s.connStatus c := by
            rw [← hs']
          have hA0 := (havail c0 hav).1
          have hP0 := (havail c0 hav).2
          have hA' : ∀ c, countActive s' c = countActive s c +
              (if c0 = c then 1 else 0) := by
            intro c
            simp only [countActive, htx, List.countP_cons]
            by_cases hc : c0 = c <;> simp [entryActiveOn, hc]
          have hpf' : ∀ c, countPF s' c = countPF s c := by
            intro c
            simp only [countPF, hpfe, htx]
            apply countP_congr_on
            intro u hu
            obtain ⟨txnu, hlu, -⟩ := hsettled u hu
            have hlt : u < s.nextId :=
              hfresh (u, txnu) (alookup_mem u s.txns txnu hlu)
            have hne : ¬ s.nextId = u := by omega
            simp only [pfOn, alookup, if_neg hne]
          refine ⟨?_, ?_, ?_, ?_, ?_⟩
          · intro q hq
            rw [htx] at hq
            rw [hnie]
            rcases List.mem_cons.mp hq with h | h
            · rw [h]; exact Nat.lt_succ_self _
            · exact Nat.lt_succ_of_lt (hfresh q h)
          · rw [htx, List.map_cons, List.nodup_cons]
            refine ⟨?_, hnodup⟩
            intro hcmem
            obtain ⟨q, hq, hq1⟩ := List.mem_map.mp hcmem
            have hlt := hfresh q hq
            rw [hq1] at hlt
            have hlt' : s.nextId < s.nextId := hlt
            exact lt_irrefl _ hlt'
          · intro u hu
            rw [hpfe] at hu
            obtain ⟨txnu, hlu, hnau⟩ := hsettled u hu
            have hlt : u < s.nextId :=
              hfresh (u, txnu) (alookup_mem u s.txns txnu hlu)
            refine ⟨txnu, ?_, hnau⟩
            rw [htx]
            simp only [alookup]
            rw [if_neg (show ¬ s.nextId = u by omega)]
            exact hlu
          · intro c
            rw [hA' c, hpf' c]
            by_cases hc : c0 = c
            · subst hc
              rw [if_pos rfl, hA0, hP0]
            · rw [if_neg hc]
              have := hbound c
              omega
          · intro c hcs
            rw [hcse] at hcs
            simp only [] at hcs
            constructor
            · rw [hA' c]
              by_cases hc : c = c0
              · rw [if_pos hc] at hcs
                cases hcs
              · rw [if_neg hc] at hcs
                rw [if_neg (fun hcc => hc hcc.symm), (havail c hcs).1]
            · rw [hpf' c]
              by_cases hc : c = c0
              · rw [if_pos hc] at hcs
                cases hcs
              · rw [if_neg hc] at hcs
                exact (havail c hcs).2
  | stopTxn t =>
      cases hl : alookup t s.txns with
      | none =>
          simp only [applyEvent, stop_transaction, hl]
          exact ⟨hfresh, hnodup, hsettled, hbound, havail⟩
      | some txn =>
          have hact : txn.status = TransactionStatus.Active := by
            simp only [okEvent, hl] at hok
            exact of_decide_eq_true hok
          simp only [applyEvent, stop_transaction, hl]
          set f : Transaction → Transaction := (fun x =>
            { x with
                status := TransactionStatus.Stopped
                meter_stop := some (x.meter_start + x.energy_delivered)
                stop_time := some s.now }) with hf
          have hfst : ∀ x, (f x).status = TransactionStatus.Stopped :=
            fun x => by rw [hf]
          have hfc : ∀ x, (f x).connector_id = x.connector_id :=
            fun x => by rw [hf]
          have hA' : ∀ c, (updAt t f s.txns).countP (entryActiveOn c) +
              (if txn.connector_id = c then 1 else 0) =
              s.txns.countP (entryActiveOn c) := by
            intro c
            have h := countP_updAt t txn f s.txns hnodup hl (entryActiveOn c)
            rw [ite_entryActiveOn_active c t txn hact,
              ite_entryActiveOn_not_active c t (f txn)
                (by simp [hfst])] at h
            omega
          have hut' : ∀ u ∈ s.pendingFinish, u ≠ t := by
            intro u hu he
            obtain ⟨txnu, hlu, hnau⟩ := hsettled u hu
            rw [he, hl] at hlu
            injection hlu with hlu
            rw [hlu] at hact
            exact hnau hact
          have hpfold : ∀ c, s.pendingFinish.countP (pfOn (updAt t f s.txns) c) =
              s.pendingFinish.countP (pfOn s.txns c) := by
            intro c
            apply countP_congr_on
            intro u hu
            simp only [pfOn, alookup_updAt_ne t u (hut' u hu)]
          have hnewt : ∀ c, List.countP (pfOn (updAt t f s.txns) c) [t] =
              (if txn.connector_id = c then 1 else 0) := by
            intro c
            rw [List.countP_cons, List.countP_nil]
            simp only [pfOn, alookup_updAt_self, hl, Option.map_some', hfc]
            by_cases hc : txn.connector_id = c <;> simp [hc]
          refine ⟨?_, ?_, ?_, ?_, ?_⟩
          · intro q hq
            obtain ⟨r, hr, hqr⟩ := mem_updAt_key t f s.txns q hq
            rw [hqr]
            exact hfresh r hr
          · show ((updAt t f s.txns).map Prod.fst).Nodup
            rw [updAt_keys]
            exact hnodup
          · intro u hu
            have hu' : u ∈ s.pendingFinish ++ [t] := hu
            rcases List.mem_append.mp hu' with hu1 | hu2
            · obtain ⟨txnu, hlu, hnau⟩ := hsettled u hu1
              refine ⟨txnu, ?_, hnau⟩
              show alookup u (updAt t f s.txns) = some txnu
              rw [alookup_updAt_ne t u (hut' u hu1)]
              exact hlu
            · have hut : u = t := by simpa using hu2
              subst hut
              refine ⟨f txn, ?_, by simp [hfst]⟩
              show alookup u (updAt u f s.txns) = some (f txn)
              rw [alookup_updAt_self, hl]
              rfl
          · intro c
            show (updAt t f s.txns).countP (entryActiveOn c) +
              (s.pendingFinish ++ [t]).countP (pfOn (updAt t f s.txns) c) ≤ 1
            rw [List.countP_append, hpfold c, hnewt c]
            have h1 := hA' c
            have h2 := hbound c
            simp only [countActive, countPF] at h2
            omega
          · intro c hcs
            have hcs' : (if c = txn.connector_id then ChargerStatus.Finishing
                else s.connStatus c) = ChargerStatus.Available := hcs
            by_cases hc : c = txn.connector_id
            · rw [if_pos hc] at hcs'
              cases hcs'
            · rw [if_neg hc] at hcs'
              have h0 := havail c hcs'
              simp only [countActive, countPF] at h0
              have hcc : ¬ txn.connector_id = c := fun he => hc he.symm
              constructor
              · show (updAt t f s.txns).countP (entryActiveOn c) = 0
                have h1 := hA' c
                rw [if_neg hcc] at h1
                omega
              · show (s.pendingFinish ++ [t]).countP
                    (pfOn (updAt t f s.txns) c) = 0
                rw [List.countP_append, hpfold c, hnewt c, if_neg hcc, h0.2]
  | firePrep t =>
      simp only [applyEvent]
      split_ifs with hmem
      · cases hl : alookup t s.txns with
        | none =>
            simp only [start_charging, hl]
            exact ⟨hfresh, hnodup, hsettled, hbound, havail⟩
        | some txn =>
            simp only [start_charging, hl]
            set g : Transaction → Transaction := (fun x =>
              { x with current_power := s.max_power * (1/10) }) with hg
            have hgst : ∀ x, (g x).status = x.status := fun x => by rw [hg]
            have hgc : ∀ x, (g x).connector_id = x.connector_id :=
              fun x => by rw [hg]
            have hA' : ∀ c, (updAt t g s.txns).countP (entryActiveOn c) =
                s.txns.countP (entryActiveOn c) := by
              intro c
              have h := countP_updAt t txn g s.txns hnodup hl (entryActiveOn c)
              have he : entryActiveOn c (t, g txn) = entryActiveOn c (t, txn) := by
                simp [entryActiveOn, hgst, hgc]
              rw [he] at h
              omega
            have hpf' : ∀ c, s.pendingFinish.countP (pfOn (updAt t g s.txns) c) =
                s.pendingFinish.countP (pfOn s.txns c) := by
              intro c
              apply countP_congr_on
              intro u hu
              simp only [pfOn, alookup_updAt_connector t u g hgc s.txns]
            refine ⟨?_, ?_, ?_, ?_, ?_⟩
            · intro q hq
              obtain ⟨r, hr, hqr⟩ := mem_updAt_key t g s.txns q hq
              rw [hqr]
              exact hfresh r hr
            · show ((updAt t g s.txns).map Prod.fst).Nodup
              rw [updAt_keys]
              exact hnodup
            · intro u hu
              obtain ⟨txnu, hlu, hnau⟩ := hsettled u hu
              by_cases hut : u = t
              · subst hut
                refine ⟨g txn, ?_, ?_⟩
                · show alookup u (updAt u g s.txns) = some (g txn)
                  rw [alookup_updAt_self, hl]
                  rfl
                · rw [hgst]
                  rw [hl] at hlu
                  injection hlu with hlu
                  rw [hlu]
                  exact hnau
              · refine ⟨txnu, ?_, hnau⟩
                show alookup u (updAt t g s.txns) = some txnu
                rw [alookup_updAt_ne t u hut]
                exact hlu
            · intro c
              show (updAt t g s.txns).countP (entryActiveOn c) +
                  s.pendingFinish.countP (pfOn (updAt t g s.txns) c) ≤ 1
              rw [hA' c, hpf' c]
              exact hbound c
            · intro c hcs
              have hcs' : (if c = txn.connector_id then ChargerStatus.Charging
                  else s.connStatus c) = ChargerStatus.Available := hcs
              by_cases hc : c = txn.connector_id
              · rw [if_pos hc] at hcs'
                cases hcs'
              · rw [if_neg hc] at hcs'
                have h0 := havail c hcs'
                simp only [countActive, countPF] at h0
                constructor
                · show (updAt t g s.txns).countP (entryActiveOn c) = 0
                  rw [hA' c]
                  exact h0.1
                · show s.pendingFinish.countP (pfOn (updAt t g s.txns) c) = 0
                  rw [hpf' c]
                  exact h0.2
      · exact ⟨hfresh, hnodup, hsettled, hbound, havail⟩
  | fireFinish t =>
      simp only [applyEvent]
      split_ifs with hmem
      · obtain ⟨txn, hl, hna⟩ := hsettled t hmem
        simp only [finish_transaction, hl]
        set k : Transaction → Transaction := (fun x =>
          { x with status := TransactionStatus.Completed }) with hk
        have hkst : ∀ x, (k x).status = TransactionStatus.Completed :=
          fun x => by rw [hk]
        have hkc : ∀ x, (k x).connector_id = x.connector_id :=
          fun x => by rw [hk]
        have hA' : ∀ c, (updAt t k s.txns).countP (entryActiveOn c) =
            s.txns.countP (entryActiveOn c) := by
          intro c
          have h := countP_updAt t txn k s.txns hnodup hl (entryActiveOn c)
          rw [ite_entryActiveOn_not_active c t txn hna,
            ite_entryActiveOn_not_active c t (k txn) (by simp [hkst])] at h
          omega
        have hpfx : ∀ c u, pfOn (updAt t k s.txns) c u = pfOn s.txns c u := by
          intro c u
          simp only [pfOn, alookup_updAt_connector t u k hkc s.txns]
        have hpfnew : ∀ c, s.pendingFinish.countP (pfOn s.txns c) =
            (s.pendingFinish.erase t).countP (pfOn s.txns c) +
              (if txn.connector_id = c then 1 else 0) := by
          intro c
          rw [countP_erase s.pendingFinish t (pfOn s.txns c) hmem]
          congr 1
          simp only [pfOn, hl, Option.map_some']
          by_cases hc : txn.connector_id = c <;> simp [hc]
        refine ⟨?_, ?_, ?_, ?_, ?_⟩
        · intro q hq
          obtain ⟨r, hr, hqr⟩ := mem_updAt_key t k s.txns q hq
          rw [hqr]
          exact hfresh r hr
        · show ((updAt t k s.txns).map Prod.fst).Nodup
          rw [updAt_keys]
          exact hnodup
        · intro u hu
          have hu' : u ∈ s.pendingFinish := List.mem_of_mem_erase hu
          obtain ⟨txnu, hlu, hnau⟩ := hsettled u hu'
          by_cases hut : u = t
          · subst hut
            refine ⟨k txn, ?_, by simp [hkst]⟩
            show alookup u (updAt u k s.txns) = some (k txn)
            rw [alookup_updAt_self, hl]
            rfl
          · refine ⟨txnu, ?_, hnau⟩
            show alookup u (updAt t k s.txns) = some txnu
            rw [alookup_updAt_ne t u hut]
            exact hlu
        · intro c
          show (updAt t k s.txns).countP (entryActiveOn c) +
              (s.pendingFinish.erase t).countP (pfOn (updAt t k s.txns) c) ≤ 1
          rw [hA' c, countP_congr_on (s.pendingFinish.erase t)
            (pfOn (updAt t k s.txns) c) (pfOn s.txns c) (fun u _ => hpfx c u)]
          have h2 := hbound c
          simp only [countActive, countPF] at h2
          have h3 := hpfnew c
          split_ifs at h3 <;> omega
        · intro c hcs
          have hcs' : (if c = txn.connector_id then ChargerStatus.Available
              else s.connStatus c) = ChargerStatus.Available := hcs
          have h2 := hbound c
          simp only [countActive, countPF] at h2
          have h3 := hpfnew c
          by_cases hc : c = txn.connector_id
          · rw [if_pos hc.symm] at h3
            constructor
            · show (updAt t k s.txns).countP (entryActiveOn c) = 0
              rw [hA' c]
              omega
            · show (s.pendingFinish.erase t).countP
                  (pfOn (updAt t k s.txns) c) = 0
              rw [countP_congr_on (s.pendingFinish.erase t)
                (pfOn (updAt t k s.txns) c) (pfOn s.txns c)
                (fun u _ => hpfx c u)]
              omega
          · rw [if_neg hc] at hcs'
            have h0 := havail c hcs'
            simp only [countActive, countPF] at h0
            rw [if_neg (fun he => hc he.symm)] at h3
            constructor
            · show (updAt t k s.txns).countP (entryActiveOn c) = 0
              rw [hA' c]
              exact h0.1
            · show (s.pendingFinish.erase t).countP
                  (pfOn (updAt t k s.txns) c) = 0
              rw [countP_congr_on (s.pendingFinish.erase t)
                (pfOn (updAt t k s.txns) c) (pfOn s.txns c)
                (fun u _ => hpfx c u)]
              omega
      · exact ⟨hfresh, hnodup, hsettled, hbound, havail⟩
  | tickEv =>
      simp only [applyEvent, tick, update_transactions]
      have hA' : ∀ c, (s.txns.map fun pr =>
          (pr.1, updateTxn s pr.2)).countP (entryActiveOn c) =
          s.txns.countP (entryActiveOn c) := by
        intro c
        apply countP_mapSnd
        intro pr
        simp [entryActiveOn, updateTxn_status, updateTxn_connector]
      have hpfx : ∀ c u,
          pfOn (s.txns.map fun pr => (pr.1, updateTxn s pr.2)) c u =
            pfOn s.txns c u := by
        intro c u
        simp only [pfOn, alookup_mapSnd]
        cases alookup u s.txns with
        | none => rfl
        | some x => simp [updateTxn_connector]
      refine ⟨?_, ?_, ?_, ?_, ?_⟩
      · intro q hq
        obtain ⟨r, hr, hqr⟩ := mem_mapSnd_key (updateTxn s) s.txns q hq
        rw [hqr]
        exact hfresh r hr
      · show ((s.txns.map fun pr => (pr.1, updateTxn s pr.2)).map Prod.fst).Nodup
        rw [mapSnd_keys]
        exact hnodup
      · intro u hu
        obtain ⟨txnu, hlu, hnau⟩ := hsettled u hu
        refine ⟨updateTxn s txnu, ?_, ?_⟩
        · show alookup u (s.txns.map fun pr => (pr.1, updateTxn s pr.2)) =
            some (updateTxn s txnu)
          rw [alookup_mapSnd, hlu]
          rfl
        · rw [updateTxn_status]
          exact hnau
      · intro c
        show (s.txns.map fun pr =>
            (pr.1, updateTxn s pr.2)).countP (entryActiveOn c) +
            s.pendingFinish.countP
              (pfOn (s.txns.map fun pr => (pr.1, updateTxn s pr.2)) c) ≤ 1
        rw [hA' c, countP_congr_on s.pendingFinish
          (pfOn (s.txns.map fun pr => (pr.1, updateTxn s pr.2)) c)
          (pfOn s.txns c) (fun u _ => hpfx c u)]
        exact hbound c
      · intro c hcs
        have hcs' : s.connStatus c = ChargerStatus.Available := hcs
        have h0 := havail c hcs'
        simp only [countActive, countPF] at h0
        constructor
        · show (s.txns.map fun pr =>
              (pr.1, updateTxn s pr.2)).countP (entryActiveOn c) = 0
          rw [hA' c]
          exact h0.1
        · show s.pendingFinish.countP
              (pfOn (s.txns.map fun pr => (pr.1, updateTxn s pr.2)) c) = 0
          rw [countP_congr_on s.pendingFinish
            (pfOn (s.txns.map fun pr => (pr.1, updateTxn s pr.2)) c)
            (pfOn s.txns c) (fun u _ => hpfx c u)]
          exact h0.2

theorem CInv_runEvents (s : ChargerState) (es : List ChargerEvent)
    (hs : CInv s) (hg : goodTrace s es = true) : CInv (runEvents s es) := by
  induction es generalizing s with
  | nil => exact hs
  | cons e es ih =>
      rw [goodTrace, Bool.and_eq_true] at hg
      exact ih (applyEvent s e) (CInv_applyEvent s e hs hg.1) hg.2

theorem CInv_mkCharger (n : ℕ) (mp tms t0 : ℚ) :
    CInv (mkCharger n mp tms t0) := by
  refine ⟨?_, ?_, ?_, ?_, ?_⟩ <;>
    simp [mkCharger, countActive, countPF]

/-- **C9, counterexample.**  The at-most-one-Active-per-connector invariant
does not survive every interleaving: calling `stop_transaction` a second
time on an already-completed transaction id (which the code accepts — it
only checks membership) re-runs the Finishing → Available sequence on that
connector while a newer transaction on the same connector is still Active,
so a third `start_transaction` is accepted and two Active transactions
reference connector 1 simultaneously. -/
theorem C9_counterexample :
    countActive (runEvents (mkCharger 2 22000 5000 0)
      [ChargerEvent.startTxn 1 "A" 0, ChargerEvent.stopTxn 0,
        ChargerEvent.fireFinish 0, ChargerEvent.startTxn 1 "B" 0,
        ChargerEvent.stopTxn 0, ChargerEvent.fireFinish 0,
        ChargerEvent.startTxn 1 "C" 0]) 1 = 2 := by
  rfl

/-- **C9.**  Every connector of a freshly constructed charger is Available,
and along every trace in which `stop_transaction` is only invoked on ids
that are currently Active or unknown (`goodTrace`), every reachable state
has at most one Active transaction referencing any given connector id.
Traces range over arbitrary interleavings of `start_transaction`,
`stop_transaction`, the delayed preparation/finishing callbacks, and loop
ticks. -/
theorem C9_active_invariant (n : ℕ) (mp tms t0 : ℚ) (es : List ChargerEvent) :
    (∀ c, (mkCharger n mp tms t0).connStatus c = ChargerStatus.Available) ∧
    (goodTrace (mkCharger n mp tms t0) es = true →
      ∀ c, countActive (runEvents (mkCharger n mp tms t0) es) c ≤ 1) := by
  refine ⟨fun c => rfl, fun hg c => ?_⟩
  have h := CInv_runEvents (mkCharger n mp tms t0) es (CInv_mkCharger n mp tms t0) hg
  have hb := h.bound c
  omega

theorem C9_active_invariant_witness :
    goodTrace (mkCharger 2 22000 5000 0)
      [ChargerEvent.startTxn 1 "A" 0, ChargerEvent.stopTxn 0,
        ChargerEvent.fireFinish 0, ChargerEvent.startTxn 1 "B" 0] = true ∧
    countActive (runEvents (mkCharger 2 22000 5000 0)
      [ChargerEvent.startTxn 1 "A" 0, ChargerEvent.stopTxn 0,
        ChargerEvent.fireFinish 0, ChargerEvent.startTxn 1 "B" 0]) 1 ≤ 1 :=
  ⟨by rfl,
    (C9_active_invariant 2 22000 5000 0
      [ChargerEvent.startTxn 1 "A" 0, ChargerEvent.stopTxn 0,
        ChargerEvent.fireFinish 0, ChargerEvent.startTxn 1 "B" 0]).2
      (by rfl) 1⟩

end Testlib
